import Mathlib

/-!
Verification development for the biokb_chebi pipeline.

The definitions below are a shallow embedding of the program:

* `src/biokb_chebi/rdf/namespaces.py` — the RDF namespace strings;
* `src/biokb_chebi/rdf/turtle.py` — the `TurtleCreator` dataframes and the
  per-document triple generation;
* `src/biokb_chebi/db/importer.py` — `DatabaseImporter.insert_data` (chunked,
  referentially filtered relational ingestion) and
  `DatabaseImporter.download_data` (the source fetcher);
* `src/biokb_chebi/neo4j_importer.py` — the uniqueness-constraint setup step
  of `Neo4jImporter.import_ttls`.

An rdflib `Graph` is a set of triples; all properties proved here are
membership properties, so each generated document is embedded as the `List`
of the triples added to the graph, and "the document contains the triple" is
list membership.
-/

/-! ### RDF terms

`rdflib.URIRef` and `rdflib.Literal` are both identified by their string
content; a `Literal` also carries a datatype URI. -/

/-- An RDF term in object position: a URI reference or a typed literal. -/
inductive Term where
  | uri (u : String)
  | lit (value : String) (datatype : String)
deriving DecidableEq, Repr

/-- A single RDF triple. Subjects and predicates of the generated documents
are always URI references, so they are carried as plain URI strings. -/
structure Triple where
  subj : String
  pred : String
  obj : Term
deriving DecidableEq, Repr

/-! ### Namespaces (`rdf/namespaces.py`, `constants.py`)

Each `rdflib.Namespace` is a string; indexing (`ns[l]`) appends the local
name to it. -/

def CHEBI_URI : String := "http://purl.obolibrary.org/obo/CHEBI_"

def BIOKB_URI : String := "https://biokb.scai.fraunhofer.de"

def BASE_URI : String := BIOKB_URI ++ "/chebi"

/-- `CHEBI_NS = Namespace(CHEBI_URI)` — `ns.chebi` in `turtle.py`. -/
def CHEBI_NS : String := CHEBI_URI

/-- `NODE_NS = Namespace(f"{BASE_URI}/node#")` — `ns.node` in `turtle.py`. -/
def NODE_NS : String := BASE_URI ++ "/node#"

/-- `REL_NS = Namespace(f"{BASE_URI}/relation#")` — `ns.relation`. -/
def REL_NS : String := BASE_URI ++ "/relation#"

/-- `NAME_NS = Namespace(f"{BASE_URI}/name#")` — `ns.name`. -/
def NAME_NS : String := BASE_URI ++ "/name#"

/-- `CAS_NS = Namespace(f"{BASE_URI}/cas#")` — `ns.cas`. -/
def CAS_NS : String := BASE_URI ++ "/cas#"

/-- `PATENT_NS = Namespace(f"{BIOKB_URI}/patent#")` — `ns.patent`, bound to
the `patent` prefix in `get_empty_graph`. -/
def PATENT_NS : String := BIOKB_URI ++ "/patent#"

/-- `INCHI_NS = Namespace("http://rdf.ncbi.nlm.nih.gov/pubchem/inchikey/")`
— `ns.inchi`. -/
def INCHI_NS : String := "http://rdf.ncbi.nlm.nih.gov/pubchem/inchikey/"

/-- `Namespace.__getitem__`: `ns[l]` is the namespace string followed by the
local name. -/
def nsGet (ns l : String) : String := ns ++ l

/-- `RDF.type` from rdflib. -/
def RDF_type : String := "http://www.w3.org/1999/02/22-rdf-syntax-ns#type"

/-- `XSD.string` from rdflib. -/
def XSD_string : String := "http://www.w3.org/2001/XMLSchema#string"

/-- `XSD.integer` from rdflib. -/
def XSD_integer : String := "http://www.w3.org/2001/XMLSchema#integer"

/-- `BASIC_NODE_LABEL` from `constants/chebi.py` — the sentinel node label. -/
def BASIC_NODE_LABEL : String := "DbChEBI"

/-! ### String facts used to keep the namespaces apart -/

theorem string_eq_of_data_eq {x y : String} (h : x.data = y.data) : x = y := by
  cases x
  cases y
  exact congrArg String.mk h

/-- Two URIs minted in namespaces whose first `n` characters differ are never
equal, whatever the local names are. -/
theorem nsGet_ne_of_take_ne (p q a b : String) (n : Nat)
    (hp : n ≤ p.data.length) (hq : n ≤ q.data.length)
    (h : p.data.take n ≠ q.data.take n) : nsGet p a ≠ nsGet q b := by
  intro he
  apply h
  have hd : (p ++ a).data = (q ++ b).data := congrArg String.data he
  rw [String.data_append, String.data_append] at hd
  have ht := congrArg (List.take n) hd
  rwa [List.take_append_of_le_length hp, List.take_append_of_le_length hq] at ht

/-- Appending to a fixed namespace is injective in the local name. -/
theorem nsGet_right_inj (p : String) {a b : String}
    (h : nsGet p a = nsGet p b) : a = b := by
  have hd : (p ++ a).data = (p ++ b).data := congrArg String.data h
  rw [String.data_append, String.data_append] at hd
  exact string_eq_of_data_eq (List.append_cancel_left hd)

/-! ### `str(n)` for a Python int is the decimal representation, i.e.
`Nat.repr` for the non-negative ids used by the pipeline. The next lemmas
establish that this representation is injective, so distinct compound ids
always mint distinct URIs. -/

/-- Numeric value of a decimal digit character. -/
def charVal (c : Char) : Nat := c.toNat - 48

/-- Value of a string of decimal digit characters. -/
def digitsVal (l : List Char) : Nat := l.foldl (fun a c => a * 10 + charVal c) 0

theorem charVal_digitChar {n : Nat} (h : n < 10) :
    charVal (Nat.digitChar n) = n := by
  interval_cases n <;> rfl

theorem digitsVal_append_singleton (l : List Char) (c : Char) :
    digitsVal (l ++ [c]) = digitsVal l * 10 + charVal c := by
  unfold digitsVal
  rw [List.foldl_append]
  rfl

theorem toDigitsCore_spec (f : Nat) :
    ∀ (n : Nat) (acc : List Char), 0 < f → n < 10 ^ f →
    ∃ ds : List Char, ds ≠ [] ∧ Nat.toDigitsCore 10 f n acc = ds ++ acc ∧
      digitsVal ds = n := by
  induction f with
  | zero => intro n acc h; omega
  | succ f ih =>
    intro n acc _ hr
    by_cases hz : n / 10 = 0
    · refine ⟨[Nat.digitChar (n % 10)], by simp, ?_, ?_⟩
      · simp [Nat.toDigitsCore, hz]
      · have hn : n < 10 := by
          rcases Nat.lt_or_ge n 10 with hlt | hge
          · exact hlt
          · exact absurd hz (by
              have : 1 ≤ n / 10 := (Nat.le_div_iff_mul_le (by omega)).mpr (by omega)
              omega)
        have : n % 10 = n := Nat.mod_eq_of_lt hn
        simp [digitsVal, this, charVal_digitChar hn]
    · have hf : 0 < f := by
        by_contra hb
        have : f = 0 := by omega
        subst this
        simp at hr
        have : n / 10 = 0 := Nat.div_eq_of_lt hr
        exact hz this
      have hdiv : n / 10 < 10 ^ f := by
        have := (Nat.div_lt_iff_lt_mul (by omega : 0 < 10)).mpr
          (by rw [← pow_succ]; exact hr)
        exact this
      obtain ⟨ds, hne, heq, hval⟩ :=
        ih (n / 10) (Nat.digitChar (n % 10) :: acc) hf hdiv
      refine ⟨ds ++ [Nat.digitChar (n % 10)], by simp [hne], ?_, ?_⟩
      · have hstep :
            Nat.toDigitsCore 10 (f + 1) n acc =
              Nat.toDigitsCore 10 f (n / 10) (Nat.digitChar (n % 10) :: acc) := by
          simp [Nat.toDigitsCore, hz]
        rw [hstep, heq, List.append_assoc]
        rfl
      · rw [digitsVal_append_singleton, hval,
          charVal_digitChar (Nat.mod_lt n (by omega))]
        omega

theorem digitsVal_repr (n : Nat) : digitsVal (Nat.repr n).data = n := by
  have hlt : n < 10 ^ (n + 1) := by
    calc n < 2 ^ n := Nat.lt_two_pow n
    _ ≤ 10 ^ n := Nat.pow_le_pow_left (by omega) n
    _ ≤ 10 ^ (n + 1) := Nat.pow_le_pow_right (by omega) (Nat.le_succ n)
  obtain ⟨ds, _, heq, hval⟩ :=
    toDigitsCore_spec (n + 1) n [] (Nat.succ_pos n) hlt
  have : Nat.repr n = ds.asString := by
    unfold Nat.repr Nat.toDigits
    rw [heq, List.append_nil]
  rw [this]
  simpa [List.asString] using hval

theorem natRepr_injective {a b : Nat} (h : Nat.repr a = Nat.repr b) : a = b := by
  have := congrArg (fun s => digitsVal s.data) h
  simpa [digitsVal_repr] using this

/-! ### Relational rows (`db/models.py`)

Only the columns read by `turtle.py` are embedded. Columns that are nullable
in the schema (or whose `pd.isna` check can fire) are `Option`; `NULL`
values read from SQL are `none`. -/

/-- A `chebi_compound` row as selected by `TurtleCreator.compound_df`
(plus `parent_id`, which the `WHERE` clause inspects). -/
structure CompoundRow where
  id : Nat
  name : Option String
  source : Option String
  status : Option String
  star : Int
  definition : Option String
  parent_id : Option Nat
deriving DecidableEq, Repr

/-- A `chebi_inchi` row (`inchi` is a non-nullable `Text` column). -/
structure InchiRow where
  id : Nat
  compound_id : Nat
  inchi : String
deriving DecidableEq, Repr

/-- A `chebi_name` row. All five literal columns are `Option` because
`create_names_ttl` guards each of them with `pd.isna`. -/
structure NameRow where
  id : Nat
  compound_id : Nat
  name : Option String
  type : Option String
  source : Option String
  adapted : Option String
  language : Option String
deriving DecidableEq, Repr

/-- A `chebi_database_accession` row. -/
structure DatabaseAccessionRow where
  id : Nat
  compound_id : Nat
  accession_number : Option String
  type : String
  source : String
deriving DecidableEq, Repr

/-- A `chebi_reference` row. -/
structure ReferenceRow where
  id : Nat
  compound_id : Nat
  reference_id : String
  reference_db_name : String
  reference_name : Option String
deriving DecidableEq, Repr

/-- A `chebi_relation` row. -/
structure RelationRow where
  id : Nat
  type : String
  status : String
  init_id : Nat
  final_id : Nat
deriving DecidableEq, Repr

/-- The relational snapshot read by the `TurtleCreator`. -/
structure Db where
  compounds : List CompoundRow
  inchis : List InchiRow
  names : List NameRow
  database_accessions : List DatabaseAccessionRow
  references : List ReferenceRow
  relations : List RelationRow
deriving Repr

/-- Python `str(x)` applied to a possibly-`None` value: `str(None)` is the
string `"None"`. -/
def pyStr : Option String → String
  | some s => s
  | none => "None"

/-- `status in ('C', 'E')` — SQL `IN` is false on `NULL`. -/
def statusCE (status : Option String) : Bool :=
  status == some "C" || status == some "E"

/-- `c.status in ('C', 'E') AND c.parent_id IS NULL` — the `WHERE` clause
shared by `compound_df`, `inchi_df`, `name_df`, `cas_number_df` and
`patent_df`. -/
def compoundWhere (c : CompoundRow) : Bool :=
  statusCE c.status && c.parent_id == none

/-! ### The `TurtleCreator` dataframes (`rdf/turtle.py`)

An SQL `INNER JOIN chebi_compound c ON (c.id = x.compound_id)` keeps one
copy of the row per matching compound; it is embedded as a `bind` over the
matching compounds. Row order in a SQL result is unspecified and an rdflib
graph is a set, so only membership matters. -/

/-- `TurtleCreator.compound_df`: compounds with status `C` or `E` and no
parent. -/
def compound_df (db : Db) : List CompoundRow :=
  db.compounds.filter compoundWhere

/-- Rows of `TurtleCreator.inchi_df` after the `inchikey` column is added:
`df["inchikey"] = df.inchi.apply(lambda x: InchiToInchiKey(x))`. -/
structure InchiDfRow where
  compound_id : Nat
  inchi : String
  inchikey : Option String
deriving DecidableEq, Repr

/-- `TurtleCreator.inchi_df`, parameterised by `InchiToInchiKey` from rdkit
(an external chemistry routine returning `None` on failure). -/
def inchi_df (ikey : String → Option String) (db : Db) : List InchiDfRow :=
  db.inchis.flatMap fun i =>
    (db.compounds.filter fun c => c.id == i.compound_id && compoundWhere c).map
      fun _ => ⟨i.compound_id, i.inchi, ikey i.inchi⟩

/-- `TurtleCreator.name_df`: name rows joined against publishable
compounds. -/
def name_df (db : Db) : List NameRow :=
  db.names.flatMap fun n =>
    (db.compounds.filter fun c => c.id == n.compound_id && compoundWhere c).map
      fun _ => n

/-- A row of `TurtleCreator.cas_number_df` after `GROUP BY`: the accession
number, the `group_concat` of its distinct sources, and the compound id. -/
structure CasRow where
  number : Option String
  sources : String
  compound_id : Nat
deriving DecidableEq, Repr

/-- Insert a string into an ascendingly sorted list (for
`order by da.source` inside `group_concat`). -/
def insertSorted (s : String) : List String → List String
  | [] => [s]
  | t :: ts => if s < t then s :: t :: ts else t :: insertSorted s ts

/-- Sort strings ascendingly. -/
def sortStrings : List String → List String
  | [] => []
  | s :: ss => insertSorted s (sortStrings ss)

/-- MySQL `group_concat(distinct x order by x)` with the default `','`
separator. -/
def group_concat_distinct (l : List String) : String :=
  String.intercalate "," (sortStrings l.dedup)

/-- The accession rows feeding `cas_number_df` before grouping:
`da.type = 'CAS Registry Number'` joined against publishable compounds. -/
def casAccessionRows (db : Db) : List DatabaseAccessionRow :=
  db.database_accessions.flatMap fun da =>
    if da.type == "CAS Registry Number" then
      (db.compounds.filter fun c => c.id == da.compound_id && compoundWhere c).map
        fun _ => da
    else []

/-- `TurtleCreator.cas_number_df`: one row per distinct
`(compound_id, accession_number)` group. -/
def cas_number_df (db : Db) : List CasRow :=
  let rows := casAccessionRows db
  ((rows.map fun r => (r.compound_id, r.accession_number)).dedup).map fun k =>
    ⟨k.2,
     group_concat_distinct
       ((rows.filter fun r =>
          r.compound_id == k.1 && r.accession_number == k.2).map
         DatabaseAccessionRow.source),
     k.1⟩

/-- A row of `TurtleCreator.patent_df`: `reference_id as patent_id`,
`reference_name name`, `compound_id`. -/
structure PatentRow where
  patent_id : String
  name : Option String
  compound_id : Nat
deriving DecidableEq, Repr

/-- `TurtleCreator.patent_df`: reference rows with
`reference_db_name = 'Patent'` joined against publishable compounds. -/
def patent_df (db : Db) : List PatentRow :=
  db.references.flatMap fun r =>
    if r.reference_db_name == "Patent" then
      (db.compounds.filter fun c => c.id == r.compound_id && compoundWhere c).map
        fun _ => ⟨r.reference_id, r.reference_name, r.compound_id⟩
    else []

/-- A row of `TurtleCreator.chebi_compound_relation_df`. -/
structure RelationDfRow where
  type : String
  init_id : Nat
  final_id : Nat
deriving DecidableEq, Repr

/-- `TurtleCreator.chebi_compound_relation_df`: relation rows with status
`C`/`E` whose two endpoints both have status `C`/`E` (note: no
`parent_id IS NULL` condition here, unlike the other dataframes). -/
def chebi_compound_relation_df (db : Db) : List RelationDfRow :=
  db.relations.flatMap fun r =>
    if r.status == "C" || r.status == "E" then
      (db.compounds.filter fun c1 => c1.id == r.init_id && statusCE c1.status).flatMap
        fun _ =>
          (db.compounds.filter fun c2 =>
              c2.id == r.final_id && statusCE c2.status).map
            fun _ => ⟨r.type, r.init_id, r.final_id⟩
    else []

/-! ### The generated documents (`rdf/turtle.py`)

Each `create_*_ttl` method iterates over its dataframe and adds triples to a
fresh graph; the document is embedded as the list of added triples. -/

/-- The `if not pd.isna(row[column]): graph.add(...)` step shared by all
literal-emitting loops: one literal triple when the value is present,
nothing when it is `NULL`. -/
def optLit (subject col : String) : Option String → List Triple
  | some v => [⟨subject, nsGet REL_NS col, Term.lit v XSD_string⟩]
  | none => []

/-- Python `str.upper()` on the ASCII relation-type codes: upper-case each
character. (`String.toUpper` computes the same characters but its internal
loop is not kernel-reducible, so the character map is used directly.) -/
def pyUpper (s : String) : String := String.mk (s.data.map Char.toUpper)

/-- The triples added for one row of the `create_compounds_ttl` loop. -/
def compoundRowTriples (row : CompoundRow) : List Triple :=
  let subject := nsGet CHEBI_NS (Nat.repr row.id)
  [⟨subject, RDF_type, Term.uri (nsGet NODE_NS "Compound")⟩,
   ⟨subject, RDF_type, Term.uri (nsGet NODE_NS BASIC_NODE_LABEL)⟩] ++
  optLit subject "name" row.name ++
  optLit subject "source" row.source ++
  optLit subject "status" row.status ++
  optLit subject "definition" row.definition

/-- `TurtleCreator.create_compounds_ttl` (the triples of `compound.ttl`). -/
def create_compounds_ttl (db : Db) : List Triple :=
  (compound_df db).flatMap compoundRowTriples

/-- `TurtleCreator.create_inchis_ttl` (the triples of `inchi.ttl`). The
`inchi` column is a non-nullable `Text` column, so its `pd.isna` guard never
fires and its literal is always emitted. -/
def inchiRowTriples (row : InchiDfRow) : List Triple :=
  let inchi := nsGet INCHI_NS (pyStr row.inchikey)
  let compound := nsGet CHEBI_NS (Nat.repr row.compound_id)
  [⟨inchi, RDF_type, Term.uri (nsGet NODE_NS "InChI")⟩,
   ⟨inchi, RDF_type, Term.uri (nsGet NODE_NS BASIC_NODE_LABEL)⟩,
   ⟨compound, nsGet REL_NS "HAS_INCHI", Term.uri inchi⟩] ++
  optLit inchi "inchi" (some row.inchi) ++
  optLit inchi "inchikey" row.inchikey

def create_inchis_ttl (ikey : String → Option String) (db : Db) : List Triple :=
  (inchi_df ikey db).flatMap inchiRowTriples

/-- The triples added for one row of the `create_names_ttl` loop. -/
def nameRowTriples (row : NameRow) : List Triple :=
  let chebi_name := nsGet NAME_NS (Nat.repr row.id)
  let compound := nsGet CHEBI_NS (Nat.repr row.compound_id)
  [⟨chebi_name, RDF_type, Term.uri (nsGet NODE_NS "Name")⟩,
   ⟨chebi_name, RDF_type, Term.uri (nsGet NODE_NS BASIC_NODE_LABEL)⟩,
   ⟨compound, nsGet REL_NS "HAS_NAME", Term.uri chebi_name⟩] ++
  optLit chebi_name "type" row.type ++
  optLit chebi_name "source" row.source ++
  optLit chebi_name "adapted" row.adapted ++
  optLit chebi_name "language" row.language ++
  optLit chebi_name "name" row.name

/-- `TurtleCreator.create_names_ttl` (the triples of `name.ttl`). -/
def create_names_ttl (db : Db) : List Triple :=
  (name_df db).flatMap nameRowTriples

/-- `TurtleCreator.create_cas_numbers_ttl` (the triples of `cas.ttl`). The
`sources` column comes from `group_concat` over a non-empty group, so it is
never `NULL`. -/
def casRowTriples (row : CasRow) : List Triple :=
  let cas := nsGet CAS_NS (pyStr row.number)
  let compound := nsGet CHEBI_NS (Nat.repr row.compound_id)
  [⟨cas, RDF_type, Term.uri (nsGet NODE_NS "Cas")⟩,
   ⟨cas, RDF_type, Term.uri (nsGet NODE_NS BASIC_NODE_LABEL)⟩,
   ⟨compound, nsGet REL_NS "HAS_CAS", Term.uri cas⟩] ++
  optLit cas "number" row.number ++
  optLit cas "sources" (some row.sources)

def create_cas_numbers_ttl (db : Db) : List Triple :=
  (cas_number_df db).flatMap casRowTriples

/-- `TurtleCreator.create_patents_ttl` (the triples of `patent.ttl`). Note
that the source mints the patent node with `ns.cas[str(row.patent_id)]`,
i.e. in the CAS namespace, not in the bound patent namespace. -/
def patentRowTriples (row : PatentRow) : List Triple :=
  let patent := nsGet CAS_NS row.patent_id
  let compound := nsGet CHEBI_NS (Nat.repr row.compound_id)
  [⟨patent, RDF_type, Term.uri (nsGet NODE_NS "Patent")⟩,
   ⟨patent, RDF_type, Term.uri (nsGet NODE_NS BASIC_NODE_LABEL)⟩,
   ⟨compound, nsGet REL_NS "HAS_PATENT", Term.uri patent⟩] ++
  optLit patent "name" row.name ++
  optLit patent "patent_id" (some row.patent_id)

def create_patents_ttl (db : Db) : List Triple :=
  (patent_df db).flatMap patentRowTriples

/-- `TurtleCreator.create_compound_relations_ttl` (the triples of
`relation.ttl`): `graph.add((compound_2, ns.relation[str(row.type).upper()],
compound_1))`, where `compound_1` is the init compound and `compound_2` the
final compound — the subject is the final compound. -/
def relationRowTriple (row : RelationDfRow) : Triple :=
  ⟨nsGet CHEBI_NS (Nat.repr row.final_id),
   nsGet REL_NS (pyUpper row.type),
   Term.uri (nsGet CHEBI_NS (Nat.repr row.init_id))⟩

def create_compound_relations_ttl (db : Db) : List Triple :=
  (chebi_compound_relation_df db).map relationRowTriple

/-- The five subject-type documents (all but `relation.ttl`), concatenated.
Membership in the concatenation is membership in one of the documents. -/
def fiveDocs (ikey : String → Option String) (db : Db) : List Triple :=
  create_compounds_ttl db ++ create_inchis_ttl ikey db ++
  create_names_ttl db ++ create_cas_numbers_ttl db ++ create_patents_ttl db

/-- All six generated documents, concatenated. -/
def allDocs (ikey : String → Option String) (db : Db) : List Triple :=
  fiveDocs ikey db ++ create_compound_relations_ttl db

/-- The compound `c` is mentioned in `doc`: its URI occurs as the subject of
some triple or as the object of some outgoing edge. -/
def mentions (doc : List Triple) (u : String) : Prop :=
  ∃ t ∈ doc, t.subj = u ∨ t.obj = Term.uri u

instance (doc : List Triple) (u : String) : Decidable (mentions doc u) :=
  List.decidableBEx _ doc

/-! ### Chunked relational ingestion (`db/importer.py`, `insert_data`)

`insert_data` first reads the full compound file and keeps its `ID` column
(`df_compound_ids`); then, for every table, it reads the source file in
chunks and, for each chunk, inner-joins the chunk against the id set on
each of the `compound_id`, `init_id` and `final_id` columns that the chunk
has, appends the surviving rows to the table and adds their number to the
per-table count. The join
`df_compound_ids.set_index(k).join(df.set_index(k), how="inner")`
produces, for every id of the compound file, every chunk row whose key
column equals that id. -/

/-- Which of the three referential columns a table has, and how to read
them. `none` means the table has no such column (the `if "compound_id" in
df.columns` test in the source). -/
structure TableSpec (ρ : Type) where
  compound_id : Option (ρ → Nat)
  init_id : Option (ρ → Nat)
  final_id : Option (ρ → Nat)

/-- The inner join of a chunk against the compound-id list on one key
column: for each id, the chunk rows carrying that id. -/
def joinOnIds {ρ : Type} (ids : List Nat) (key : ρ → Nat) (rows : List ρ) :
    List ρ :=
  ids.flatMap fun i => rows.filter fun r => key r == i

/-- Apply the join for one referential column if the table has it. -/
def applyJoin {ρ : Type} (ids : List Nat) (okey : Option (ρ → Nat))
    (rows : List ρ) : List ρ :=
  match okey with
  | none => rows
  | some k => joinOnIds ids k rows

/-- The referential filter applied to one chunk: the three joins of
`insert_data`, in source order. -/
def filterChunk {ρ : Type} (ids : List Nat) (ts : TableSpec ρ)
    (chunk : List ρ) : List ρ :=
  applyJoin ids ts.final_id (applyJoin ids ts.init_id
    (applyJoin ids ts.compound_id chunk))

/-- The per-table chunk loop of `insert_data`: each chunk is filtered and
appended to the table (`df.to_sql(..., if_exists="append")`), and the
number of surviving rows is added to the inserted count
(`inserted[table_name] += df.shape[0]`). Returns the final count and the
table contents. -/
def insert_data_table {ρ : Type} (ids : List Nat) (ts : TableSpec ρ)
    (chunks : List (List ρ)) : Nat × List ρ :=
  chunks.foldl
    (fun acc chunk =>
      let f := filterChunk ids ts chunk
      (acc.1 + f.length, acc.2 ++ f))
    (0, [])

/-! ### Graph-store constraint setup (`neo4j_importer.py`)

`Neo4jImporter.import_ttls` (and `__get_neo4j_db` in
`rdf/neo4j_importer.py`) runs
`CREATE CONSTRAINT n10s_unique_uri IF NOT EXISTS FOR (r:Resource) REQUIRE
r.uri IS UNIQUE` against the graph store on every invocation. -/

/-- The graph store's constraint catalogue: the list of constraint names it
holds. -/
structure GraphStoreState where
  constraints : List String
deriving DecidableEq, Repr

/-- Modelled from the spec: the graph store executing a Cypher
`CREATE CONSTRAINT <name> IF NOT EXISTS` statement — the store itself is an
external system, so its documented "create if not exists" semantics is
embedded: when a constraint of that name already exists the statement
succeeds without changing the store, otherwise it adds the constraint; it
never fails. -/
def runCreateConstraintIfNotExists (name : String) (s : GraphStoreState) :
    Except String GraphStoreState :=
  if name ∈ s.constraints then Except.ok s
  else Except.ok { constraints := s.constraints ++ [name] }

/-- The constraint name used by both importers. -/
def n10s_constraint : String := "n10s_unique_uri"

/-- The constraint-setup step of `Neo4jImporter.import_ttls`. -/
def setupConstraint (s : GraphStoreState) : Except String GraphStoreState :=
  runCreateConstraintIfNotExists n10s_constraint s

/-! ### The source fetcher (`db/importer.py`, `download_data`)

For every file name: skip it when it already exists locally and no
re-download is forced; otherwise open the destination path for writing and
stream the transfer into it. A transport failure mid-transfer leaves the
bytes written so far in the file at its final path (there is no temporary
name, rename, or cleanup) and aborts the whole fetch by raising. -/

/-- The outcome of one file transfer: either the complete chunk sequence,
or a failure after some chunks were already written. -/
inductive Transfer where
  | complete (chunks : List String)
  | failed (written : List String) (err : String)

/-- The staging directory: file name to file content. -/
def FileSys : Type := List (String × String)

/-- Content of a file, when present. -/
def fsGet (fs : FileSys) (name : String) : Option String :=
  (fs.find? fun e => e.1 == name).map Prod.snd

/-- `open(path, "wb")` followed by the writes: the file ends up with
exactly the written bytes, whatever it held before. -/
def fsSet (fs : FileSys) (name content : String) : FileSys :=
  (name, content) :: (fs.filter fun e => e.1 != name)

/-- `DatabaseImporter.download_data` (the same structure as
`DbManager.__download_data`): iterate over the file list; skip existing
files unless `redownload`; otherwise run the transfer, writing into the
file at its final path. On a transport error the partial content has
already been written to the final path and the fetch aborts with the
transport error. -/
def download_data (transport : String → Transfer) (redownload : Bool) :
    List String → FileSys → Except (String × FileSys) FileSys
  | [], fs => Except.ok fs
  | n :: rest, fs =>
    if !redownload && (fsGet fs n).isSome then
      download_data transport redownload rest fs
    else
      match transport n with
      | Transfer.complete cs =>
          download_data transport redownload rest (fsSet fs n (String.join cs))
      | Transfer.failed ws e => Except.error (e, fsSet fs n (String.join ws))

/-! ### Namespace disjointness

The concrete namespace strings pairwise differ within their fixed heads, so
URIs minted in different namespaces can never collide, whatever the local
names are. -/

theorem chebi_ne_node (a b : String) : nsGet CHEBI_NS a ≠ nsGet NODE_NS b :=
  nsGet_ne_of_take_ne _ _ _ _ 5 (by decide) (by decide) (by decide)

theorem chebi_ne_inchi (a b : String) : nsGet CHEBI_NS a ≠ nsGet INCHI_NS b :=
  nsGet_ne_of_take_ne _ _ _ _ 8 (by decide) (by decide) (by decide)

theorem chebi_ne_nameNs (a b : String) : nsGet CHEBI_NS a ≠ nsGet NAME_NS b :=
  nsGet_ne_of_take_ne _ _ _ _ 5 (by decide) (by decide) (by decide)

theorem chebi_ne_cas (a b : String) : nsGet CHEBI_NS a ≠ nsGet CAS_NS b :=
  nsGet_ne_of_take_ne _ _ _ _ 5 (by decide) (by decide) (by decide)

theorem chebi_ne_patent (a b : String) : nsGet CHEBI_NS a ≠ nsGet PATENT_NS b :=
  nsGet_ne_of_take_ne _ _ _ _ 5 (by decide) (by decide) (by decide)

theorem cas_ne_patent (a b : String) : nsGet CAS_NS a ≠ nsGet PATENT_NS b :=
  nsGet_ne_of_take_ne _ _ _ _ 34 (by decide) (by decide) (by decide)

/-- Compound URIs are injective in the id. -/
theorem chebiUri_inj {a b : Nat}
    (h : nsGet CHEBI_NS (Nat.repr a) = nsGet CHEBI_NS (Nat.repr b)) : a = b :=
  natRepr_injective (nsGet_right_inj _ h)

/-! ### Membership characterizations for the dataframes and documents -/

theorem mem_optLit_iff {s col : String} {v : Option String} {t : Triple} :
    t ∈ optLit s col v ↔
      ∃ x, v = some x ∧ t = ⟨s, nsGet REL_NS col, Term.lit x XSD_string⟩ := by
  cases v <;> simp [optLit]

theorem mem_compound_df {db : Db} {c : CompoundRow} :
    c ∈ compound_df db ↔ c ∈ db.compounds ∧ compoundWhere c = true :=
  List.mem_filter

/-- There is a compound row with this id that satisfies the shared `WHERE`
clause (status `C`/`E`, no parent). -/
def pubId (db : Db) (k : Nat) : Prop :=
  ∃ c ∈ db.compounds, c.id = k ∧ compoundWhere c = true

theorem inchi_df_shape {ikey : String → Option String} {db : Db}
    {row : InchiDfRow} (h : row ∈ inchi_df ikey db) :
    (∃ i ∈ db.inchis, row = ⟨i.compound_id, i.inchi, ikey i.inchi⟩) ∧
      pubId db row.compound_id := by
  simp only [inchi_df, List.mem_flatMap, List.mem_map, List.mem_filter] at h
  obtain ⟨i, hi, c, ⟨hc, hcond⟩, rfl⟩ := h
  simp only [Bool.and_eq_true, beq_iff_eq] at hcond
  exact ⟨⟨i, hi, rfl⟩, c, hc, hcond.1, hcond.2⟩

theorem name_df_shape {db : Db} {row : NameRow} (h : row ∈ name_df db) :
    row ∈ db.names ∧ pubId db row.compound_id := by
  simp only [name_df, List.mem_flatMap, List.mem_map, List.mem_filter] at h
  obtain ⟨n, hn, c, ⟨hc, hcond⟩, rfl⟩ := h
  simp only [Bool.and_eq_true, beq_iff_eq] at hcond
  exact ⟨hn, c, hc, hcond.1, hcond.2⟩

theorem casAccessionRows_shape {db : Db} {r : DatabaseAccessionRow}
    (h : r ∈ casAccessionRows db) :
    r ∈ db.database_accessions ∧ r.type = "CAS Registry Number" ∧
      pubId db r.compound_id := by
  simp only [casAccessionRows, List.mem_flatMap] at h
  obtain ⟨da, hda, hmem⟩ := h
  by_cases hty : da.type == "CAS Registry Number"
  · rw [if_pos hty] at hmem
    simp only [List.mem_map, List.mem_filter] at hmem
    obtain ⟨c, ⟨hc, hcond⟩, rfl⟩ := hmem
    simp only [Bool.and_eq_true, beq_iff_eq] at hcond
    exact ⟨hda, by simpa using hty, c, hc, hcond.1, hcond.2⟩
  · rw [if_neg hty] at hmem
    exact absurd hmem (List.not_mem_nil r)

theorem cas_number_df_shape {db : Db} {row : CasRow}
    (h : row ∈ cas_number_df db) :
    (∃ r ∈ casAccessionRows db,
        row.compound_id = r.compound_id ∧ row.number = r.accession_number) ∧
      pubId db row.compound_id := by
  simp only [cas_number_df, List.mem_map] at h
  obtain ⟨k, hk, rfl⟩ := h
  have hk2 := List.mem_dedup.mp hk
  simp only [List.mem_map] at hk2
  obtain ⟨r, hr, rfl⟩ := hk2
  have hsh := casAccessionRows_shape hr
  exact ⟨⟨r, hr, rfl, rfl⟩, hsh.2.2⟩

theorem patent_df_shape {db : Db} {row : PatentRow} (h : row ∈ patent_df db) :
    (∃ r ∈ db.references, r.reference_db_name = "Patent" ∧
        row = ⟨r.reference_id, r.reference_name, r.compound_id⟩) ∧
      pubId db row.compound_id := by
  simp only [patent_df, List.mem_flatMap] at h
  obtain ⟨r, hr, hmem⟩ := h
  by_cases hdb : r.reference_db_name == "Patent"
  · rw [if_pos hdb] at hmem
    simp only [List.mem_map, List.mem_filter] at hmem
    obtain ⟨c, ⟨hc, hcond⟩, rfl⟩ := hmem
    simp only [Bool.and_eq_true, beq_iff_eq] at hcond
    exact ⟨⟨r, hr, by simpa using hdb, rfl⟩, c, hc, hcond.1, hcond.2⟩
  · rw [if_neg hdb] at hmem
    exact absurd hmem (List.not_mem_nil row)

theorem relation_df_shape {db : Db} {row : RelationDfRow}
    (h : row ∈ chebi_compound_relation_df db) :
    ∃ r ∈ db.relations, (r.status = "C" ∨ r.status = "E") ∧
      row = ⟨r.type, r.init_id, r.final_id⟩ ∧
      (∃ c1 ∈ db.compounds, c1.id = r.init_id ∧ statusCE c1.status = true) ∧
      (∃ c2 ∈ db.compounds, c2.id = r.final_id ∧ statusCE c2.status = true) := by
  simp only [chebi_compound_relation_df, List.mem_flatMap] at h
  obtain ⟨r, hr, hmem⟩ := h
  by_cases hst : (r.status == "C" || r.status == "E") = true
  · rw [if_pos hst] at hmem
    simp only [List.mem_flatMap, List.mem_map, List.mem_filter] at hmem
    obtain ⟨c1, ⟨hc1, hcond1⟩, c2, ⟨hc2, hcond2⟩, rfl⟩ := hmem
    simp only [Bool.and_eq_true, beq_iff_eq] at hcond1 hcond2
    refine ⟨r, hr, ?_, rfl, ⟨c1, hc1, hcond1.1, hcond1.2⟩,
      ⟨c2, hc2, hcond2.1, hcond2.2⟩⟩
    simpa using hst
  · rw [if_neg hst] at hmem
    exact absurd hmem (List.not_mem_nil row)

/-! ### Subject and object shapes of the per-row triples -/

theorem compoundRowTriples_shape {c : CompoundRow} {t : Triple}
    (h : t ∈ compoundRowTriples c) :
    t.subj = nsGet CHEBI_NS (Nat.repr c.id) ∧
      ((∃ l, t.obj = Term.uri (nsGet NODE_NS l)) ∨
        ∃ v d, t.obj = Term.lit v d) := by
  simp only [compoundRowTriples, List.mem_append, List.mem_cons,
    List.not_mem_nil, or_false, mem_optLit_iff, or_assoc] at h
  rcases h with rfl | rfl | ⟨v, hv, rfl⟩ | ⟨v, hv, rfl⟩ | ⟨v, hv, rfl⟩ |
    ⟨v, hv, rfl⟩
  · exact ⟨rfl, Or.inl ⟨"Compound", rfl⟩⟩
  · exact ⟨rfl, Or.inl ⟨BASIC_NODE_LABEL, rfl⟩⟩
  all_goals exact ⟨rfl, Or.inr ⟨v, XSD_string, rfl⟩⟩

theorem inchiRowTriples_shape {row : InchiDfRow} {t : Triple}
    (h : t ∈ inchiRowTriples row) :
    (t.subj = nsGet INCHI_NS (pyStr row.inchikey) ∨
      t.subj = nsGet CHEBI_NS (Nat.repr row.compound_id)) ∧
      ((∃ l, t.obj = Term.uri (nsGet NODE_NS l)) ∨
        (∃ s, t.obj = Term.uri (nsGet INCHI_NS s)) ∨
        ∃ v d, t.obj = Term.lit v d) := by
  simp only [inchiRowTriples, List.mem_append, List.mem_cons,
    List.not_mem_nil, or_false, mem_optLit_iff, or_assoc] at h
  rcases h with rfl | rfl | rfl | ⟨v, hv, rfl⟩ | ⟨v, hv, rfl⟩
  · exact ⟨Or.inl rfl, Or.inl ⟨"InChI", rfl⟩⟩
  · exact ⟨Or.inl rfl, Or.inl ⟨BASIC_NODE_LABEL, rfl⟩⟩
  · exact ⟨Or.inr rfl, Or.inr (Or.inl ⟨pyStr row.inchikey, rfl⟩)⟩
  all_goals exact ⟨Or.inl rfl, Or.inr (Or.inr ⟨v, XSD_string, rfl⟩)⟩

theorem nameRowTriples_shape {row : NameRow} {t : Triple}
    (h : t ∈ nameRowTriples row) :
    (t.subj = nsGet NAME_NS (Nat.repr row.id) ∨
      t.subj = nsGet CHEBI_NS (Nat.repr row.compound_id)) ∧
      ((∃ l, t.obj = Term.uri (nsGet NODE_NS l)) ∨
        (∃ s, t.obj = Term.uri (nsGet NAME_NS s)) ∨
        ∃ v d, t.obj = Term.lit v d) := by
  simp only [nameRowTriples, List.mem_append, List.mem_cons,
    List.not_mem_nil, or_false, mem_optLit_iff, or_assoc] at h
  rcases h with rfl | rfl | rfl | ⟨v, hv, rfl⟩ | ⟨v, hv, rfl⟩ | ⟨v, hv, rfl⟩ |
    ⟨v, hv, rfl⟩ | ⟨v, hv, rfl⟩
  · exact ⟨Or.inl rfl, Or.inl ⟨"Name", rfl⟩⟩
  · exact ⟨Or.inl rfl, Or.inl ⟨BASIC_NODE_LABEL, rfl⟩⟩
  · exact ⟨Or.inr rfl, Or.inr (Or.inl ⟨Nat.repr row.id, rfl⟩)⟩
  all_goals exact ⟨Or.inl rfl, Or.inr (Or.inr ⟨v, XSD_string, rfl⟩)⟩

theorem casRowTriples_shape {row : CasRow} {t : Triple}
    (h : t ∈ casRowTriples row) :
    (t.subj = nsGet CAS_NS (pyStr row.number) ∨
      t.subj = nsGet CHEBI_NS (Nat.repr row.compound_id)) ∧
      ((∃ l, t.obj = Term.uri (nsGet NODE_NS l)) ∨
        (∃ s, t.obj = Term.uri (nsGet CAS_NS s)) ∨
        ∃ v d, t.obj = Term.lit v d) := by
  simp only [casRowTriples, List.mem_append, List.mem_cons,
    List.not_mem_nil, or_false, mem_optLit_iff, or_assoc] at h
  rcases h with rfl | rfl | rfl | ⟨v, hv, rfl⟩ | ⟨v, hv, rfl⟩
  · exact ⟨Or.inl rfl, Or.inl ⟨"Cas", rfl⟩⟩
  · exact ⟨Or.inl rfl, Or.inl ⟨BASIC_NODE_LABEL, rfl⟩⟩
  · exact ⟨Or.inr rfl, Or.inr (Or.inl ⟨pyStr row.number, rfl⟩)⟩
  all_goals exact ⟨Or.inl rfl, Or.inr (Or.inr ⟨v, XSD_string, rfl⟩)⟩

theorem patentRowTriples_shape {row : PatentRow} {t : Triple}
    (h : t ∈ patentRowTriples row) :
    (t.subj = nsGet CAS_NS row.patent_id ∨
      t.subj = nsGet CHEBI_NS (Nat.repr row.compound_id)) ∧
      ((∃ l, t.obj = Term.uri (nsGet NODE_NS l)) ∨
        (∃ s, t.obj = Term.uri (nsGet CAS_NS s)) ∨
        ∃ v d, t.obj = Term.lit v d) := by
  simp only [patentRowTriples, List.mem_append, List.mem_cons,
    List.not_mem_nil, or_false, mem_optLit_iff, or_assoc] at h
  rcases h with rfl | rfl | rfl | ⟨v, hv, rfl⟩ | ⟨v, hv, rfl⟩
  · exact ⟨Or.inl rfl, Or.inl ⟨"Patent", rfl⟩⟩
  · exact ⟨Or.inl rfl, Or.inl ⟨BASIC_NODE_LABEL, rfl⟩⟩
  · exact ⟨Or.inr rfl, Or.inr (Or.inl ⟨row.patent_id, rfl⟩)⟩
  all_goals exact ⟨Or.inl rfl, Or.inr (Or.inr ⟨v, XSD_string, rfl⟩)⟩

/-! ### Which compounds can be mentioned in each document -/

theorem mentions_compounds_ttl {db : Db} {k : Nat}
    (h : mentions (create_compounds_ttl db) (nsGet CHEBI_NS (Nat.repr k))) :
    pubId db k := by
  obtain ⟨t, ht, hcase⟩ := h
  simp only [create_compounds_ttl, List.mem_flatMap] at ht
  obtain ⟨c, hc, htr⟩ := ht
  rw [mem_compound_df] at hc
  obtain ⟨hsubj, hobj⟩ := compoundRowTriples_shape htr
  rcases hcase with hs | ho
  · exact ⟨c, hc.1, chebiUri_inj (hsubj ▸ hs).symm ▸ rfl, hc.2⟩
  · rcases hobj with ⟨l, hl⟩ | ⟨v, d, hd⟩
    · exact absurd (hl ▸ ho) (by
        intro he
        exact chebi_ne_node (Nat.repr k) l (Term.uri.injEq _ _ ▸ he).symm)
    · exact absurd (hd ▸ ho) (by intro he; cases he)

theorem mentions_inchis_ttl {ikey : String → Option String} {db : Db} {k : Nat}
    (h : mentions (create_inchis_ttl ikey db) (nsGet CHEBI_NS (Nat.repr k))) :
    pubId db k := by
  obtain ⟨t, ht, hcase⟩ := h
  simp only [create_inchis_ttl, List.mem_flatMap] at ht
  obtain ⟨row, hrow, htr⟩ := ht
  obtain ⟨_, hpub⟩ := inchi_df_shape hrow
  obtain ⟨hsubj, hobj⟩ := inchiRowTriples_shape htr
  rcases hcase with hs | ho
  · rcases hsubj with hi | hcmp
    · exact absurd (hi ▸ hs) (chebi_ne_inchi _ _).symm
    · obtain ⟨c, hc, hid, hw⟩ := hpub
      exact ⟨c, hc, hid.trans (chebiUri_inj (hcmp ▸ hs)), hw⟩
  · rcases hobj with ⟨l, hl⟩ | ⟨s, hs'⟩ | ⟨v, d, hd⟩
    · exact absurd (hl ▸ ho) (by
        intro he
        exact chebi_ne_node (Nat.repr k) l (Term.uri.injEq _ _ ▸ he).symm)
    · exact absurd (hs' ▸ ho) (by
        intro he
        exact chebi_ne_inchi (Nat.repr k) s (Term.uri.injEq _ _ ▸ he).symm)
    · exact absurd (hd ▸ ho) (by intro he; cases he)

theorem mentions_names_ttl {db : Db} {k : Nat}
    (h : mentions (create_names_ttl db) (nsGet CHEBI_NS (Nat.repr k))) :
    pubId db k := by
  obtain ⟨t, ht, hcase⟩ := h
  simp only [create_names_ttl, List.mem_flatMap] at ht
  obtain ⟨row, hrow, htr⟩ := ht
  obtain ⟨_, hpub⟩ := name_df_shape hrow
  obtain ⟨hsubj, hobj⟩ := nameRowTriples_shape htr
  rcases hcase with hs | ho
  · rcases hsubj with hn | hcmp
    · exact absurd (hn ▸ hs) (chebi_ne_nameNs _ _).symm
    · obtain ⟨c, hc, hid, hw⟩ := hpub
      exact ⟨c, hc, hid.trans (chebiUri_inj (hcmp ▸ hs)), hw⟩
  · rcases hobj with ⟨l, hl⟩ | ⟨s, hs'⟩ | ⟨v, d, hd⟩
    · exact absurd (hl ▸ ho) (by
        intro he
        exact chebi_ne_node (Nat.repr k) l (Term.uri.injEq _ _ ▸ he).symm)
    · exact absurd (hs' ▸ ho) (by
        intro he
        exact chebi_ne_nameNs (Nat.repr k) s (Term.uri.injEq _ _ ▸ he).symm)
    · exact absurd (hd ▸ ho) (by intro he; cases he)

theorem mentions_cas_ttl {db : Db} {k : Nat}
    (h : mentions (create_cas_numbers_ttl db) (nsGet CHEBI_NS (Nat.repr k))) :
    pubId db k := by
  obtain ⟨t, ht, hcase⟩ := h
  simp only [create_cas_numbers_ttl, List.mem_flatMap] at ht
  obtain ⟨row, hrow, htr⟩ := ht
  obtain ⟨_, hpub⟩ := cas_number_df_shape hrow
  obtain ⟨hsubj, hobj⟩ := casRowTriples_shape htr
  rcases hcase with hs | ho
  · rcases hsubj with hn | hcmp
    · exact absurd (hn ▸ hs) (chebi_ne_cas _ _).symm
    · obtain ⟨c, hc, hid, hw⟩ := hpub
      exact ⟨c, hc, hid.trans (chebiUri_inj (hcmp ▸ hs)), hw⟩
  · rcases hobj with ⟨l, hl⟩ | ⟨s, hs'⟩ | ⟨v, d, hd⟩
    · exact absurd (hl ▸ ho) (by
        intro he
        exact chebi_ne_node (Nat.repr k) l (Term.uri.injEq _ _ ▸ he).symm)
    · exact absurd (hs' ▸ ho) (by
        intro he
        exact chebi_ne_cas (Nat.repr k) s (Term.uri.injEq _ _ ▸ he).symm)
    · exact absurd (hd ▸ ho) (by intro he; cases he)

theorem mentions_patents_ttl {db : Db} {k : Nat}
    (h : mentions (create_patents_ttl db) (nsGet CHEBI_NS (Nat.repr k))) :
    pubId db k := by
  obtain ⟨t, ht, hcase⟩ := h
  simp only [create_patents_ttl, List.mem_flatMap] at ht
  obtain ⟨row, hrow, htr⟩ := ht
  obtain ⟨_, hpub⟩ := patent_df_shape hrow
  obtain ⟨hsubj, hobj⟩ := patentRowTriples_shape htr
  rcases hcase with hs | ho
  · rcases hsubj with hn | hcmp
    · exact absurd (hn ▸ hs) (chebi_ne_cas _ _).symm
    · obtain ⟨c, hc, hid, hw⟩ := hpub
      exact ⟨c, hc, hid.trans (chebiUri_inj (hcmp ▸ hs)), hw⟩
  · rcases hobj with ⟨l, hl⟩ | ⟨s, hs'⟩ | ⟨v, d, hd⟩
    · exact absurd (hl ▸ ho) (by
        intro he
        exact chebi_ne_node (Nat.repr k) l (Term.uri.injEq _ _ ▸ he).symm)
    · exact absurd (hs' ▸ ho) (by
        intro he
        exact chebi_ne_cas (Nat.repr k) s (Term.uri.injEq _ _ ▸ he).symm)
    · exact absurd (hd ▸ ho) (by intro he; cases he)

theorem mentions_relations_ttl {db : Db} {k : Nat}
    (h : mentions (create_compound_relations_ttl db)
      (nsGet CHEBI_NS (Nat.repr k))) :
    ∃ c ∈ db.compounds, c.id = k ∧ statusCE c.status = true := by
  obtain ⟨t, ht, hcase⟩ := h
  simp only [create_compound_relations_ttl, List.mem_map] at ht
  obtain ⟨row, hrow, rfl⟩ := ht
  obtain ⟨r, hr, _, hrw, hc1, hc2⟩ := relation_df_shape hrow
  subst hrw
  rcases hcase with hs | ho
  · obtain ⟨c2, hc2m, hid, hst⟩ := hc2
    exact ⟨c2, hc2m, hid.trans (chebiUri_inj hs), hst⟩
  · obtain ⟨c1, hc1m, hid, hst⟩ := hc1
    have : Nat.repr r.init_id = Nat.repr k := by
      have := Term.uri.injEq (nsGet CHEBI_NS (Nat.repr r.init_id))
        (nsGet CHEBI_NS (Nat.repr k)) ▸ ho
      exact nsGet_right_inj _ this
    exact ⟨c1, hc1m, hid.trans (natRepr_injective this), hst⟩

/-! ### Claim C1 -/

/-- The six generated documents, in generation order. -/
def documentList (ikey : String → Option String) (db : Db) :
    List (List Triple) :=
  [create_compounds_ttl db, create_inchis_ttl ikey db, create_names_ttl db,
   create_cas_numbers_ttl db, create_patents_ttl db,
   create_compound_relations_ttl db]

/-- The five subject-type documents (all but `relation.ttl`). -/
def subjectDocumentList (ikey : String → Option String) (db : Db) :
    List (List Triple) :=
  [create_compounds_ttl db, create_inchis_ttl ikey db, create_names_ttl db,
   create_cas_numbers_ttl db, create_patents_ttl db]

/-- Claim C1 as stated: a compound whose status code is not the published
status (`C`), or whose `parent_id` is non-null, is mentioned in none of the
six documents. -/
def claimC1 (ikey : String → Option String) (db : Db) : Prop :=
  ∀ c ∈ db.compounds, (c.status ≠ some "C" ∨ c.parent_id ≠ none) →
    ∀ doc ∈ documentList ikey db,
      ¬ mentions doc (nsGet CHEBI_NS (Nat.repr c.id))

/-- A snapshot with a compound of status `E` (not the published status) and
a compound with a parent that is an endpoint of a `C`-status relation. -/
def dbC1 : Db :=
  { compounds :=
      [⟨1, some "water", none, some "E", 3, none, none⟩,
       ⟨2, none, none, some "C", 3, none, some 1⟩],
    inchis := [], names := [], database_accessions := [], references := [],
    relations := [⟨1, "is_a", "C", 2, 2⟩] }

/-- C1 fails on the code: compound 1 of `dbC1` has status `E`, which is not
the published status, but it is the subject of triples in `compound.ttl`;
compound 2 has a non-null `parent_id` but appears in `relation.ttl`
(`chebi_compound_relation_df` checks the endpoint statuses but not
`parent_id`). -/
theorem c1_counterexample : ¬ claimC1 (fun _ => none) dbC1 := by
  unfold claimC1
  decide

/-- Members of a list with nodup ids are determined by their id. -/
theorem eq_of_mem_of_id_eq {l : List CompoundRow}
    (hids : (l.map CompoundRow.id).Nodup) {c d : CompoundRow}
    (hc : c ∈ l) (hd : d ∈ l) (h : c.id = d.id) : c = d :=
  List.inj_on_of_nodup_map hids hc hd h

/-- C1 (amended): under unique compound ids, a compound whose status is
neither `C` nor `E` is mentioned in none of the six documents; a compound
with a non-null `parent_id` is mentioned in none of the five subject-type
documents (it can still be mentioned in `relation.ttl`, whose query does
not test `parent_id`). -/
theorem c1_amended (ikey : String → Option String) (db : Db)
    (hids : (db.compounds.map CompoundRow.id).Nodup) (c : CompoundRow)
    (hc : c ∈ db.compounds) :
    (statusCE c.status = false →
      ∀ doc ∈ documentList ikey db,
        ¬ mentions doc (nsGet CHEBI_NS (Nat.repr c.id))) ∧
    (c.parent_id ≠ none →
      ∀ doc ∈ subjectDocumentList ikey db,
        ¬ mentions doc (nsGet CHEBI_NS (Nat.repr c.id))) := by
  have hpub : ∀ k, pubId db k → c.id = k → compoundWhere c = true := by
    intro k ⟨d, hd, hdk, hdw⟩ hck
    have : c = d := eq_of_mem_of_id_eq hids hc hd (hck.trans hdk.symm)
    exact this ▸ hdw
  constructor
  · intro hst doc hdoc hm
    simp only [documentList, List.mem_cons, List.not_mem_nil, or_false] at hdoc
    have hok : compoundWhere c = true ∨
        ∃ d ∈ db.compounds, d.id = c.id ∧ statusCE d.status = true := by
      rcases hdoc with rfl | rfl | rfl | rfl | rfl | rfl
      · exact Or.inl (hpub _ (mentions_compounds_ttl hm) rfl)
      · exact Or.inl (hpub _ (mentions_inchis_ttl hm) rfl)
      · exact Or.inl (hpub _ (mentions_names_ttl hm) rfl)
      · exact Or.inl (hpub _ (mentions_cas_ttl hm) rfl)
      · exact Or.inl (hpub _ (mentions_patents_ttl hm) rfl)
      · exact Or.inr (mentions_relations_ttl hm)
    rcases hok with hw | ⟨d, hd, hdk, hdst⟩
    · simp only [compoundWhere, Bool.and_eq_true] at hw
      rw [hw.1] at hst
      cases hst
    · have : c = d := eq_of_mem_of_id_eq hids hc hd hdk.symm
      rw [← this] at hdst
      rw [hdst] at hst
      cases hst
  · intro hpar doc hdoc hm
    simp only [subjectDocumentList, List.mem_cons, List.not_mem_nil,
      or_false] at hdoc
    have hw : compoundWhere c = true := by
      rcases hdoc with rfl | rfl | rfl | rfl | rfl
      · exact hpub _ (mentions_compounds_ttl hm) rfl
      · exact hpub _ (mentions_inchis_ttl hm) rfl
      · exact hpub _ (mentions_names_ttl hm) rfl
      · exact hpub _ (mentions_cas_ttl hm) rfl
      · exact hpub _ (mentions_patents_ttl hm) rfl
    simp only [compoundWhere, Bool.and_eq_true, beq_iff_eq] at hw
    exact hpar hw.2

/-- The compound of the C1 witness snapshot: status `D`, no parent. -/
def wcC1 : CompoundRow := ⟨5, none, none, some "D", 0, none, none⟩

/-- The C1 witness snapshot. -/
def wdbC1 : Db := ⟨[wcC1], [], [], [], [], []⟩

/-- Witness for the amended C1 at a concrete snapshot. -/
theorem c1_witness :
    (statusCE wcC1.status = false →
      ∀ doc ∈ documentList (fun _ => none) wdbC1,
        ¬ mentions doc (nsGet CHEBI_NS (Nat.repr wcC1.id))) ∧
    (wcC1.parent_id ≠ none →
      ∀ doc ∈ subjectDocumentList (fun _ => none) wdbC1,
        ¬ mentions doc (nsGet CHEBI_NS (Nat.repr wcC1.id))) :=
  c1_amended (fun _ => none) wdbC1 (by decide) wcC1 (by decide)

/-! ### Claim C4 -/

/-- Is this term a string-typed literal? -/
def isStringLit : Term → Bool
  | Term.lit _ d => d == XSD_string
  | _ => false

/-- Is this term an integer-typed literal? -/
def isIntegerLit : Term → Bool
  | Term.lit _ d => d == XSD_integer
  | _ => false

/-- The compound document has a string literal for `col` on subject `u`. -/
def hasLit (db : Db) (u col : String) : Prop :=
  ∃ t ∈ create_compounds_ttl db,
    t.subj = u ∧ t.pred = nsGet REL_NS col ∧ isStringLit t.obj = true

instance (db : Db) (u col : String) : Decidable (hasLit db u col) :=
  List.decidableBEx _ _

/-- The compound document has an integer star-rating literal on `u`. -/
def hasStar (db : Db) (u : String) : Prop :=
  ∃ t ∈ create_compounds_ttl db,
    t.subj = u ∧ t.pred = nsGet REL_NS "star" ∧ isIntegerLit t.obj = true

instance (db : Db) (u : String) : Decidable (hasStar db u) :=
  List.decidableBEx _ _

/-- When `parent_id` is set, the document has an edge from `u` to the
parent compound's URI. -/
def hasParentEdge (doc : List Triple) (u : String) : Option Nat → Prop
  | some p =>
      ∃ t ∈ doc,
        t.subj = u ∧ t.obj = Term.uri (nsGet CHEBI_NS (Nat.repr p))
  | none => True

instance (doc : List Triple) (u : String) (o : Option Nat) :
    Decidable (hasParentEdge doc u o) := by
  cases o
  · exact inferInstanceAs (Decidable True)
  · exact List.decidableBEx _ _

/-- Claim C4 as stated: every row of the compound document has its four
string literals exactly when the column is non-null, always a star literal,
and a parent edge when `parent_id` is set. -/
def claimC4 (db : Db) : Prop :=
  ∀ c ∈ compound_df db,
    (hasLit db (nsGet CHEBI_NS (Nat.repr c.id)) "name" ↔ c.name.isSome) ∧
    (hasLit db (nsGet CHEBI_NS (Nat.repr c.id)) "source" ↔ c.source.isSome) ∧
    (hasLit db (nsGet CHEBI_NS (Nat.repr c.id)) "status" ↔ c.status.isSome) ∧
    (hasLit db (nsGet CHEBI_NS (Nat.repr c.id)) "definition" ↔
      c.definition.isSome) ∧
    hasStar db (nsGet CHEBI_NS (Nat.repr c.id)) ∧
    hasParentEdge (create_compounds_ttl db) (nsGet CHEBI_NS (Nat.repr c.id))
      c.parent_id

/-- A snapshot with one fully populated published compound. -/
def dbC4 : Db :=
  { compounds := [⟨1, some "water", some "ChEBI", some "C", 3,
      some "oxidane", none⟩],
    inchis := [], names := [], database_accessions := [], references := [],
    relations := [] }

/-- C4 fails on the code: `create_compounds_ttl` never emits a star-rating
triple (the `star` column is selected by `compound_df` but unused by the
loop), so the star conjunct is false for the compound of `dbC4`. -/
theorem c4_counterexample : ¬ claimC4 dbC4 := by
  unfold claimC4
  decide

/-- Full membership characterization of the per-row compound triples. -/
theorem compoundRowTriples_mem_iff {c : CompoundRow} {t : Triple} :
    t ∈ compoundRowTriples c ↔
      (t = ⟨nsGet CHEBI_NS (Nat.repr c.id), RDF_type,
          Term.uri (nsGet NODE_NS "Compound")⟩ ∨
       t = ⟨nsGet CHEBI_NS (Nat.repr c.id), RDF_type,
          Term.uri (nsGet NODE_NS BASIC_NODE_LABEL)⟩ ∨
       (∃ v, c.name = some v ∧ t = ⟨nsGet CHEBI_NS (Nat.repr c.id),
          nsGet REL_NS "name", Term.lit v XSD_string⟩) ∨
       (∃ v, c.source = some v ∧ t = ⟨nsGet CHEBI_NS (Nat.repr c.id),
          nsGet REL_NS "source", Term.lit v XSD_string⟩) ∨
       (∃ v, c.status = some v ∧ t = ⟨nsGet CHEBI_NS (Nat.repr c.id),
          nsGet REL_NS "status", Term.lit v XSD_string⟩) ∨
       (∃ v, c.definition = some v ∧ t = ⟨nsGet CHEBI_NS (Nat.repr c.id),
          nsGet REL_NS "definition", Term.lit v XSD_string⟩)) := by
  simp [compoundRowTriples, mem_optLit_iff, or_assoc]

/-- A triple of the compound document whose subject is the URI of a
compound row `c` (under unique ids) was emitted for `c` itself. -/
theorem compound_lit_triple_inv {db : Db}
    (hids : (db.compounds.map CompoundRow.id).Nodup) {c : CompoundRow}
    (hc : c ∈ compound_df db) {t : Triple}
    (ht : t ∈ create_compounds_ttl db)
    (hsubj : t.subj = nsGet CHEBI_NS (Nat.repr c.id)) :
    t ∈ compoundRowTriples c := by
  simp only [create_compounds_ttl, List.mem_flatMap] at ht
  obtain ⟨d, hd, htd⟩ := ht
  have hsd := (compoundRowTriples_shape htd).1
  have hdc : d = c :=
    eq_of_mem_of_id_eq hids (mem_compound_df.mp hd).1 (mem_compound_df.mp hc).1
      (chebiUri_inj (hsd.symm.trans hsubj))
  exact hdc ▸ htd

/-- C4 (amended): every row of the compound document has its four string
literals exactly when the column is non-null; no star-rating triple is
emitted at all; rows with a non-null `parent_id` never reach the document
(the `WHERE` clause excludes them), and no edge from a compound to any
compound URI is emitted. -/
theorem c4_amended (db : Db)
    (hids : (db.compounds.map CompoundRow.id).Nodup) (c : CompoundRow)
    (hc : c ∈ compound_df db) :
    (hasLit db (nsGet CHEBI_NS (Nat.repr c.id)) "name" ↔ c.name.isSome) ∧
    (hasLit db (nsGet CHEBI_NS (Nat.repr c.id)) "source" ↔ c.source.isSome) ∧
    (hasLit db (nsGet CHEBI_NS (Nat.repr c.id)) "status" ↔ c.status.isSome) ∧
    (hasLit db (nsGet CHEBI_NS (Nat.repr c.id)) "definition" ↔
      c.definition.isSome) ∧
    ¬ hasStar db (nsGet CHEBI_NS (Nat.repr c.id)) ∧
    c.parent_id = none ∧
    ¬ ∃ t ∈ create_compounds_ttl db,
        t.subj = nsGet CHEBI_NS (Nat.repr c.id) ∧
        ∃ p, t.obj = Term.uri (nsGet CHEBI_NS p) := by
  have hemit : ∀ t ∈ compoundRowTriples c, t ∈ create_compounds_ttl db :=
    fun t ht => List.mem_flatMap.mpr ⟨c, hc, ht⟩
  refine ⟨?_, ?_, ?_, ?_, ?_, ?_, ?_⟩
  · constructor
    · rintro ⟨t, ht, hsubj, hpred, hlit⟩
      have htc := compound_lit_triple_inv hids hc ht hsubj
      rw [compoundRowTriples_mem_iff] at htc
      rcases htc with rfl | rfl | ⟨v, hv, rfl⟩ | ⟨v, hv, rfl⟩ | ⟨v, hv, rfl⟩ |
        ⟨v, hv, rfl⟩
      · simp [RDF_type, nsGet, REL_NS, BASE_URI, BIOKB_URI] at hpred
      · simp [RDF_type, nsGet, REL_NS, BASE_URI, BIOKB_URI] at hpred
      · simp [hv]
      · simp [RDF_type, nsGet, REL_NS, BASE_URI, BIOKB_URI] at hpred
      · simp [RDF_type, nsGet, REL_NS, BASE_URI, BIOKB_URI] at hpred
      · simp [RDF_type, nsGet, REL_NS, BASE_URI, BIOKB_URI] at hpred
    · intro hsome
      obtain ⟨v, hv⟩ := Option.isSome_iff_exists.mp hsome
      exact ⟨_, hemit _ (compoundRowTriples_mem_iff.mpr
        (Or.inr (Or.inr (Or.inl ⟨v, hv, rfl⟩)))), rfl, rfl, by
          simp [isStringLit]⟩
  · constructor
    · rintro ⟨t, ht, hsubj, hpred, hlit⟩
      have htc := compound_lit_triple_inv hids hc ht hsubj
      rw [compoundRowTriples_mem_iff] at htc
      rcases htc with rfl | rfl | ⟨v, hv, rfl⟩ | ⟨v, hv, rfl⟩ | ⟨v, hv, rfl⟩ |
        ⟨v, hv, rfl⟩
      · simp [RDF_type, nsGet, REL_NS, BASE_URI, BIOKB_URI] at hpred
      · simp [RDF_type, nsGet, REL_NS, BASE_URI, BIOKB_URI] at hpred
      · simp [RDF_type, nsGet, REL_NS, BASE_URI, BIOKB_URI] at hpred
      · simp [hv]
      · simp [RDF_type, nsGet, REL_NS, BASE_URI, BIOKB_URI] at hpred
      · simp [RDF_type, nsGet, REL_NS, BASE_URI, BIOKB_URI] at hpred
    · intro hsome
      obtain ⟨v, hv⟩ := Option.isSome_iff_exists.mp hsome
      exact ⟨_, hemit _ (compoundRowTriples_mem_iff.mpr
        (Or.inr (Or.inr (Or.inr (Or.inl ⟨v, hv, rfl⟩))))), rfl, rfl, by
          simp [isStringLit]⟩
  · constructor
    · rintro ⟨t, ht, hsubj, hpred, hlit⟩
      have htc := compound_lit_triple_inv hids hc ht hsubj
      rw [compoundRowTriples_mem_iff] at htc
      rcases htc with rfl | rfl | ⟨v, hv, rfl⟩ | ⟨v, hv, rfl⟩ | ⟨v, hv, rfl⟩ |
        ⟨v, hv, rfl⟩
      · simp [RDF_type, nsGet, REL_NS, BASE_URI, BIOKB_URI] at hpred
      · simp [RDF_type, nsGet, REL_NS, BASE_URI, BIOKB_URI] at hpred
      · simp [RDF_type, nsGet, REL_NS, BASE_URI, BIOKB_URI] at hpred
      · simp [RDF_type, nsGet, REL_NS, BASE_URI, BIOKB_URI] at hpred
      · simp [hv]
      · simp [RDF_type, nsGet, REL_NS, BASE_URI, BIOKB_URI] at hpred
    · intro hsome
      obtain ⟨v, hv⟩ := Option.isSome_iff_exists.mp hsome
      exact ⟨_, hemit _ (compoundRowTriples_mem_iff.mpr
        (Or.inr (Or.inr (Or.inr (Or.inr (Or.inl ⟨v, hv, rfl⟩)))))), rfl, rfl,
        by simp [isStringLit]⟩
  · constructor
    · rintro ⟨t, ht, hsubj, hpred, hlit⟩
      have htc := compound_lit_triple_inv hids hc ht hsubj
      rw [compoundRowTriples_mem_iff] at htc
      rcases htc with rfl | rfl | ⟨v, hv, rfl⟩ | ⟨v, hv, rfl⟩ | ⟨v, hv, rfl⟩ |
        ⟨v, hv, rfl⟩
      · simp [RDF_type, nsGet, REL_NS, BASE_URI, BIOKB_URI] at hpred
      · simp [RDF_type, nsGet, REL_NS, BASE_URI, BIOKB_URI] at hpred
      · simp [RDF_type, nsGet, REL_NS, BASE_URI, BIOKB_URI] at hpred
      · simp [RDF_type, nsGet, REL_NS, BASE_URI, BIOKB_URI] at hpred
      · simp [RDF_type, nsGet, REL_NS, BASE_URI, BIOKB_URI] at hpred
      · simp [hv]
    · intro hsome
      obtain ⟨v, hv⟩ := Option.isSome_iff_exists.mp hsome
      exact ⟨_, hemit _ (compoundRowTriples_mem_iff.mpr
        (Or.inr (Or.inr (Or.inr (Or.inr (Or.inr ⟨v, hv, rfl⟩)))))), rfl, rfl,
        by simp [isStringLit]⟩
  · rintro ⟨t, ht, hsubj, hpred, hlit⟩
    have htc := compound_lit_triple_inv hids hc ht hsubj
    rw [compoundRowTriples_mem_iff] at htc
    rcases htc with rfl | rfl | ⟨v, hv, rfl⟩ | ⟨v, hv, rfl⟩ | ⟨v, hv, rfl⟩ |
      ⟨v, hv, rfl⟩
    all_goals simp [isIntegerLit, XSD_string, XSD_integer] at hlit
  · have := (mem_compound_df.mp hc).2
    simp only [compoundWhere, Bool.and_eq_true, beq_iff_eq] at this
    exact this.2
  · rintro ⟨t, ht, hsubj, p, hobj⟩
    simp only [create_compounds_ttl, List.mem_flatMap] at ht
    obtain ⟨d, hd, htd⟩ := ht
    rcases (compoundRowTriples_shape htd).2 with ⟨l, hl⟩ | ⟨v, dt, hd'⟩
    · exact chebi_ne_patent p l (by exact absurd (hl.symm.trans hobj) (by
        intro he
        exact chebi_ne_node p l ((Term.uri.injEq _ _).mp he.symm)))
    · rw [hd'] at hobj
      cases hobj

/-- The compound of the C4 witness snapshot. -/
def wcC4 : CompoundRow := ⟨7, some "caffeine", none, some "C", 2, none, none⟩

/-- The C4 witness snapshot. -/
def wdbC4 : Db := ⟨[wcC4], [], [], [], [], []⟩

/-- Witness for the amended C4 at a concrete snapshot. -/
theorem c4_witness :
    (hasLit wdbC4 (nsGet CHEBI_NS (Nat.repr wcC4.id)) "name" ↔
      wcC4.name.isSome) ∧
    (hasLit wdbC4 (nsGet CHEBI_NS (Nat.repr wcC4.id)) "source" ↔
      wcC4.source.isSome) ∧
    (hasLit wdbC4 (nsGet CHEBI_NS (Nat.repr wcC4.id)) "status" ↔
      wcC4.status.isSome) ∧
    (hasLit wdbC4 (nsGet CHEBI_NS (Nat.repr wcC4.id)) "definition" ↔
      wcC4.definition.isSome) ∧
    ¬ hasStar wdbC4 (nsGet CHEBI_NS (Nat.repr wcC4.id)) ∧
    wcC4.parent_id = none ∧
    ¬ ∃ t ∈ create_compounds_ttl wdbC4,
        t.subj = nsGet CHEBI_NS (Nat.repr wcC4.id) ∧
        ∃ p, t.obj = Term.uri (nsGet CHEBI_NS p) :=
  c4_amended wdbC4 (by decide) wcC4 (by decide)

/-! ### Claim C9 -/

/-- C9: every edge of the relation document originates from a relation row
whose own status is `C` or `E` (so a relation row with any other status,
e.g. the obsolete code, contributes no triple even between `C`/`E`
endpoints), and the edge has the upper-cased type as predicate, the final
compound as subject and the init compound as object. -/
theorem c9_relation_status (db : Db) (t : Triple)
    (ht : t ∈ create_compound_relations_ttl db) :
    ∃ r ∈ db.relations, (r.status = "C" ∨ r.status = "E") ∧
      t = ⟨nsGet CHEBI_NS (Nat.repr r.final_id),
           nsGet REL_NS (pyUpper r.type),
           Term.uri (nsGet CHEBI_NS (Nat.repr r.init_id))⟩ := by
  simp only [create_compound_relations_ttl, List.mem_map] at ht
  obtain ⟨row, hrow, rfl⟩ := ht
  obtain ⟨r, hr, hst, hrw, _, _⟩ := relation_df_shape hrow
  exact ⟨r, hr, hst, by rw [hrw]; rfl⟩

/-- The C9 witness snapshot: one `C`-status relation between two `C`-status
compounds. -/
def dbC9 : Db :=
  { compounds :=
      [⟨1, none, none, some "C", 0, none, none⟩,
       ⟨2, none, none, some "C", 0, none, none⟩],
    inchis := [], names := [], database_accessions := [], references := [],
    relations := [⟨1, "is_a", "C", 1, 2⟩] }

/-- Witness for C9 at a concrete snapshot. -/
theorem c9_witness :
    ∃ r ∈ dbC9.relations, (r.status = "C" ∨ r.status = "E") ∧
      (⟨nsGet CHEBI_NS (Nat.repr 2), nsGet REL_NS "IS_A",
        Term.uri (nsGet CHEBI_NS (Nat.repr 1))⟩ : Triple) =
        ⟨nsGet CHEBI_NS (Nat.repr r.final_id),
         nsGet REL_NS (pyUpper r.type),
         Term.uri (nsGet CHEBI_NS (Nat.repr r.init_id))⟩ :=
  c9_relation_status dbC9
    ⟨nsGet CHEBI_NS (Nat.repr 2), nsGet REL_NS "IS_A",
     Term.uri (nsGet CHEBI_NS (Nat.repr 1))⟩ (by
      have h : create_compound_relations_ttl dbC9 =
          [⟨nsGet CHEBI_NS (Nat.repr 2), nsGet REL_NS "IS_A",
            Term.uri (nsGet CHEBI_NS (Nat.repr 1))⟩] := by decide
      rw [h]
      exact List.mem_singleton.mpr (by decide))

/-! ### Claim C3 -/

/-- Claim C3 as stated: for every relation row between two publishable
compounds the relation document contains an edge with the upper-cased type
as predicate whose subject is the init compound and whose object is the
final compound. -/
def claimC3 (db : Db) : Prop :=
  ∀ r ∈ db.relations, pubId db r.init_id → pubId db r.final_id →
    (⟨nsGet CHEBI_NS (Nat.repr r.init_id), nsGet REL_NS (pyUpper r.type),
      Term.uri (nsGet CHEBI_NS (Nat.repr r.final_id))⟩ : Triple) ∈
      create_compound_relations_ttl db

/-- The C3 counterexample snapshot: a `C`-status `has_functional_parent`
relation from init 1 to final 2 between two publishable compounds, plus an
obsolete (`O`) relation between the same compounds. -/
def dbC3 : Db :=
  { compounds :=
      [⟨1, none, none, some "C", 0, none, none⟩,
       ⟨2, none, none, some "C", 0, none, none⟩],
    inchis := [], names := [], database_accessions := [], references := [],
    relations :=
      [⟨1, "has_functional_parent", "C", 1, 2⟩,
       ⟨2, "is_a", "O", 1, 2⟩] }

/-- C3 fails on the code: the generated edge for the relation of `dbC3` is
`(final, HAS_FUNCTIONAL_PARENT, init)`, i.e. subject and object are the
reverse of the claimed direction, so the claimed triple with the init
compound as subject is absent (and the `O`-status relation yields no triple
at all). -/
theorem c3_counterexample : ¬ claimC3 dbC3 := by
  unfold claimC3 pubId
  decide

/-- Constructive membership in the relation dataframe. -/
theorem relation_df_intro {db : Db} {r : RelationRow} (hr : r ∈ db.relations)
    (hst : (r.status == "C" || r.status == "E") = true)
    (h1 : ∃ c1 ∈ db.compounds, c1.id = r.init_id ∧ statusCE c1.status = true)
    (h2 : ∃ c2 ∈ db.compounds, c2.id = r.final_id ∧ statusCE c2.status = true) :
    (⟨r.type, r.init_id, r.final_id⟩ : RelationDfRow) ∈
      chebi_compound_relation_df db := by
  obtain ⟨c1, hc1, hid1, hst1⟩ := h1
  obtain ⟨c2, hc2, hid2, hst2⟩ := h2
  simp only [chebi_compound_relation_df, List.mem_flatMap]
  refine ⟨r, hr, ?_⟩
  rw [if_pos hst]
  simp only [List.mem_flatMap, List.mem_map, List.mem_filter]
  exact ⟨c1, ⟨hc1, by simp [hid1, hst1]⟩, c2, ⟨hc2, by simp [hid2, hst2]⟩, trivial⟩

/-- C3 (amended): for every relation row whose own status is `C` or `E` and
whose endpoints are both publishable, the relation document contains the
edge with the upper-cased type as predicate — but directed from the final
compound (subject) to the init compound (object), the reverse of the
claimed direction. -/
theorem c3_amended (db : Db) (r : RelationRow) (hr : r ∈ db.relations)
    (hst : r.status = "C" ∨ r.status = "E")
    (hinit : pubId db r.init_id) (hfinal : pubId db r.final_id) :
    (⟨nsGet CHEBI_NS (Nat.repr r.final_id), nsGet REL_NS (pyUpper r.type),
      Term.uri (nsGet CHEBI_NS (Nat.repr r.init_id))⟩ : Triple) ∈
      create_compound_relations_ttl db := by
  have hstb : (r.status == "C" || r.status == "E") = true := by
    rcases hst with h | h <;> simp [h]
  have hw : ∀ k, pubId db k →
      ∃ c ∈ db.compounds, c.id = k ∧ statusCE c.status = true := by
    intro k ⟨c, hc, hid, hcw⟩
    simp only [compoundWhere, Bool.and_eq_true] at hcw
    exact ⟨c, hc, hid, hcw.1⟩
  have hdf := relation_df_intro hr hstb (hw _ hinit) (hw _ hfinal)
  simp only [create_compound_relations_ttl, List.mem_map]
  exact ⟨⟨r.type, r.init_id, r.final_id⟩, hdf, rfl⟩

/-- The relation row of the C3 witness snapshot. -/
def wrC3 : RelationRow := ⟨1, "has_functional_parent", "C", 1, 2⟩

/-- The C3 witness snapshot. -/
def wdbC3 : Db :=
  { compounds :=
      [⟨1, none, none, some "C", 0, none, none⟩,
       ⟨2, none, none, some "E", 0, none, none⟩],
    inchis := [], names := [], database_accessions := [], references := [],
    relations := [wrC3] }

/-- Witness for the amended C3 at a concrete snapshot. -/
theorem c3_witness :
    (⟨nsGet CHEBI_NS (Nat.repr wrC3.final_id),
      nsGet REL_NS (pyUpper wrC3.type),
      Term.uri (nsGet CHEBI_NS (Nat.repr wrC3.init_id))⟩ : Triple) ∈
      create_compound_relations_ttl wdbC3 :=
  c3_amended wdbC3 wrC3 (by decide) (Or.inl rfl)
    ⟨⟨1, none, none, some "C", 0, none, none⟩, by decide, by decide, by decide⟩
    ⟨⟨2, none, none, some "E", 0, none, none⟩, by decide, by decide, by decide⟩

/-! ### Claim C8 -/

/-- C8: every cross-reference node minted by the patent document is typed
under a URI in the CAS namespace; no subject of the patent document lies in
the bound patent namespace; and a CAS accession equal to a patent id mints
the identical node URI in the CAS document. -/
theorem c8_patent_namespace (db : Db) :
    (∀ row ∈ patent_df db,
      (⟨nsGet CAS_NS row.patent_id, RDF_type,
        Term.uri (nsGet NODE_NS "Patent")⟩ : Triple) ∈
        create_patents_ttl db) ∧
    (∀ t ∈ create_patents_ttl db, ∀ s, t.subj ≠ nsGet PATENT_NS s) ∧
    (∀ row ∈ patent_df db, ∀ a ∈ cas_number_df db,
      a.number = some row.patent_id →
      (⟨nsGet CAS_NS row.patent_id, RDF_type,
        Term.uri (nsGet NODE_NS "Cas")⟩ : Triple) ∈
        create_cas_numbers_ttl db) := by
  refine ⟨?_, ?_, ?_⟩
  · intro row hrow
    exact List.mem_flatMap.mpr ⟨row, hrow, by
      simp [patentRowTriples]⟩
  · intro t ht s
    simp only [create_patents_ttl, List.mem_flatMap] at ht
    obtain ⟨row, _, htr⟩ := ht
    rcases (patentRowTriples_shape htr).1 with hcas | hcmp
    · rw [hcas]
      exact cas_ne_patent _ _
    · rw [hcmp]
      exact chebi_ne_patent _ _
  · intro row hrow a ha hnum
    refine List.mem_flatMap.mpr ⟨a, ha, ?_⟩
    have : pyStr a.number = row.patent_id := by rw [hnum]; rfl
    simp [casRowTriples, this]

/-- The C8 witness snapshot: a patent reference and a CAS accession whose
id strings coincide. -/
def dbC8 : Db :=
  { compounds := [⟨1, none, none, some "C", 0, none, none⟩],
    inchis := [], names := [],
    database_accessions :=
      [⟨1, 1, some "123-45-6", "CAS Registry Number", "ChemIDplus"⟩],
    references := [⟨1, 1, "123-45-6", "Patent", none⟩],
    relations := [] }

/-- Witness for C8: the patent and CAS documents of `dbC8` type the very
same URI as `Patent` and as `Cas`. -/
theorem c8_witness :
    (⟨nsGet CAS_NS "123-45-6", RDF_type,
      Term.uri (nsGet NODE_NS "Patent")⟩ : Triple) ∈
      create_patents_ttl dbC8 ∧
    (⟨nsGet CAS_NS "123-45-6", RDF_type,
      Term.uri (nsGet NODE_NS "Cas")⟩ : Triple) ∈
      create_cas_numbers_ttl dbC8 :=
  ⟨(c8_patent_namespace dbC8).1 ⟨"123-45-6", none, 1⟩ (by decide),
   (c8_patent_namespace dbC8).2.2 ⟨"123-45-6", none, 1⟩ (by decide)
     ⟨some "123-45-6", "ChemIDplus", 1⟩ (by decide) rfl⟩

/-! ### Claim C10 -/

/-- C10: every node that occurs as a subject in the compound, inchi, name,
cas or patent document carries a type triple with the sentinel base-node
label somewhere in those five documents (minted nodes get it in their own
document, compound subjects get it in the compound document) — so the graph
loader's sentinel-labeled bulk delete covers every node these documents
create. -/
theorem c10_sentinel (ikey : String → Option String) (db : Db) (t : Triple)
    (ht : t ∈ fiveDocs ikey db) :
    (⟨t.subj, RDF_type, Term.uri (nsGet NODE_NS BASIC_NODE_LABEL)⟩ :
      Triple) ∈ fiveDocs ikey db := by
  have hcmp : ∀ k, pubId db k →
      (⟨nsGet CHEBI_NS (Nat.repr k), RDF_type,
        Term.uri (nsGet NODE_NS BASIC_NODE_LABEL)⟩ : Triple) ∈
        create_compounds_ttl db := by
    intro k hk
    obtain ⟨c, hc, hid, hw⟩ := hk
    subst hid
    exact List.mem_flatMap.mpr
      ⟨c, mem_compound_df.mpr ⟨hc, hw⟩, by simp [compoundRowTriples]⟩
  simp only [fiveDocs, List.mem_append, or_assoc] at ht ⊢
  rcases ht with h | h | h | h | h
  · obtain ⟨c, hc, htd⟩ := List.mem_flatMap.mp h
    rw [(compoundRowTriples_shape htd).1]
    exact Or.inl (List.mem_flatMap.mpr ⟨c, hc, by simp [compoundRowTriples]⟩)
  · obtain ⟨row, hrow, htd⟩ := List.mem_flatMap.mp h
    rcases (inchiRowTriples_shape htd).1 with hs | hs <;> rw [hs]
    · exact Or.inr (Or.inl
        (List.mem_flatMap.mpr ⟨row, hrow, by simp [inchiRowTriples]⟩))
    · exact Or.inl (hcmp _ (inchi_df_shape hrow).2)
  · obtain ⟨row, hrow, htd⟩ := List.mem_flatMap.mp h
    rcases (nameRowTriples_shape htd).1 with hs | hs <;> rw [hs]
    · exact Or.inr (Or.inr (Or.inl
        (List.mem_flatMap.mpr ⟨row, hrow, by simp [nameRowTriples]⟩)))
    · exact Or.inl (hcmp _ (name_df_shape hrow).2)
  · obtain ⟨row, hrow, htd⟩ := List.mem_flatMap.mp h
    rcases (casRowTriples_shape htd).1 with hs | hs <;> rw [hs]
    · exact Or.inr (Or.inr (Or.inr (Or.inl
        (List.mem_flatMap.mpr ⟨row, hrow, by simp [casRowTriples]⟩))))
    · exact Or.inl (hcmp _ (cas_number_df_shape hrow).2)
  · obtain ⟨row, hrow, htd⟩ := List.mem_flatMap.mp h
    rcases (patentRowTriples_shape htd).1 with hs | hs <;> rw [hs]
    · exact Or.inr (Or.inr (Or.inr (Or.inr
        (List.mem_flatMap.mpr ⟨row, hrow, by simp [patentRowTriples]⟩))))
    · exact Or.inl (hcmp _ (patent_df_shape hrow).2)

/-- The C10 witness snapshot: one published compound with a name row. -/
def dbC10 : Db :=
  { compounds := [⟨1, some "water", none, some "C", 0, none, none⟩],
    inchis := [],
    names := [⟨4, 1, some "H2O", some "FORMULA", none, none, none⟩],
    database_accessions := [], references := [], relations := [] }

/-- Witness for C10: the compound URI, which is the subject of the
`HAS_NAME` edge in the name document of `dbC10`, carries the sentinel type
triple within the five documents. -/
theorem c10_witness :
    (⟨(Triple.mk (nsGet CHEBI_NS (Nat.repr 1)) (nsGet REL_NS "HAS_NAME")
        (Term.uri (nsGet NAME_NS (Nat.repr 4)))).subj, RDF_type,
      Term.uri (nsGet NODE_NS BASIC_NODE_LABEL)⟩ : Triple) ∈
      fiveDocs (fun _ => none) dbC10 :=
  c10_sentinel (fun _ => none) dbC10
    ⟨nsGet CHEBI_NS (Nat.repr 1), nsGet REL_NS "HAS_NAME",
     Term.uri (nsGet NAME_NS (Nat.repr 4))⟩ (by
      have h : ∃ x ∈ fiveDocs (fun _ => none) dbC10,
          x = ⟨nsGet CHEBI_NS (Nat.repr 1), nsGet REL_NS "HAS_NAME",
            Term.uri (nsGet NAME_NS (Nat.repr 4))⟩ := by decide
      obtain ⟨x, hx, rfl⟩ := h
      exact hx)

/-! ### Lemmas about the referential filter and the chunk loop -/

theorem mem_joinOnIds {ρ : Type} {ids : List Nat} {key : ρ → Nat}
    {rows : List ρ} {r : ρ} (h : r ∈ joinOnIds ids key rows) :
    r ∈ rows ∧ key r ∈ ids := by
  simp only [joinOnIds, List.mem_flatMap, List.mem_filter, beq_iff_eq] at h
  obtain ⟨i, hi, hr, hk⟩ := h
  exact ⟨hr, hk ▸ hi⟩

theorem mem_applyJoin {ρ : Type} {ids : List Nat} {okey : Option (ρ → Nat)}
    {rows : List ρ} {r : ρ} (h : r ∈ applyJoin ids okey rows) :
    r ∈ rows ∧ ∀ k, okey = some k → k r ∈ ids := by
  cases okey with
  | none => exact ⟨h, fun k hk => by cases hk⟩
  | some k =>
      obtain ⟨hr, hk⟩ := mem_joinOnIds h
      exact ⟨hr, fun k2 hk2 => by cases hk2; exact hk⟩

theorem mem_filterChunk {ρ : Type} {ids : List Nat} {ts : TableSpec ρ}
    {chunk : List ρ} {r : ρ} (h : r ∈ filterChunk ids ts chunk) :
    r ∈ chunk ∧ (∀ k, ts.compound_id = some k → k r ∈ ids) ∧
      (∀ k, ts.init_id = some k → k r ∈ ids) ∧
      (∀ k, ts.final_id = some k → k r ∈ ids) := by
  obtain ⟨h2, hfin⟩ := mem_applyJoin h
  obtain ⟨h1, hini⟩ := mem_applyJoin h2
  obtain ⟨h0, hcid⟩ := mem_applyJoin h1
  exact ⟨h0, hcid, hini, hfin⟩

theorem insert_data_table_foldl {ρ : Type} (ids : List Nat) (ts : TableSpec ρ) :
    ∀ (chunks : List (List ρ)) (acc : Nat × List ρ),
      chunks.foldl
        (fun acc chunk =>
          let f := filterChunk ids ts chunk
          (acc.1 + f.length, acc.2 ++ f)) acc =
      (acc.1 + (chunks.map fun c => (filterChunk ids ts c).length).sum,
       acc.2 ++ (chunks.map (filterChunk ids ts)).flatten) := by
  intro chunks
  induction chunks with
  | nil => intro acc; simp
  | cons c cs ih =>
      intro acc
      simp only [List.foldl_cons, ih, List.map_cons, List.sum_cons,
        List.flatten_cons, List.append_assoc, Nat.add_assoc]

theorem insert_data_table_eq {ρ : Type} (ids : List Nat) (ts : TableSpec ρ)
    (chunks : List (List ρ)) :
    insert_data_table ids ts chunks =
      ((chunks.map fun c => (filterChunk ids ts c).length).sum,
       (chunks.map (filterChunk ids ts)).flatten) := by
  unfold insert_data_table
  rw [insert_data_table_foldl]
  simp

theorem joinOnIds_nil {ρ : Type} (ids : List Nat) (key : ρ → Nat) :
    joinOnIds ids key [] = [] := by
  induction ids with
  | nil => rfl
  | cons i is ih => simp [joinOnIds]

theorem filterChunk_nil {ρ : Type} (ids : List Nat) (ts : TableSpec ρ) :
    filterChunk ids ts [] = [] := by
  unfold filterChunk applyJoin
  cases ts.compound_id <;> cases ts.init_id <;> cases ts.final_id <;>
    simp [joinOnIds_nil]

theorem joinOnIds_perm {ρ : Type} (ids : List Nat) (key : ρ → Nat)
    {xs ys : List ρ} (h : xs.Perm ys) :
    (joinOnIds ids key xs).Perm (joinOnIds ids key ys) := by
  induction ids with
  | nil => exact List.Perm.refl _
  | cons i is ih =>
      simp only [joinOnIds, List.flatMap_cons]
      exact (h.filter _).append ih

/-- Append blocks may be interchanged up to permutation. -/
theorem perm_middle_swap {α : Type} (a b c d : List α) :
    ((a ++ b) ++ (c ++ d)).Perm ((a ++ c) ++ (b ++ d)) := by
  have h1 : (b ++ (c ++ d)).Perm (c ++ (b ++ d)) := by
    rw [← List.append_assoc, ← List.append_assoc]
    exact List.Perm.append_right d List.perm_append_comm
  rw [List.append_assoc, List.append_assoc]
  exact List.Perm.append_left a h1

theorem joinOnIds_append (ids : List Nat) {ρ : Type} (key : ρ → Nat)
    (xs ys : List ρ) :
    (joinOnIds ids key (xs ++ ys)).Perm
      (joinOnIds ids key xs ++ joinOnIds ids key ys) := by
  induction ids with
  | nil => exact List.Perm.refl _
  | cons i is ih =>
      simp only [joinOnIds, List.flatMap_cons, List.filter_append] at ih ⊢
      exact (List.Perm.append_left _ ih).trans (perm_middle_swap _ _ _ _)

theorem applyJoin_perm {ρ : Type} (ids : List Nat) (okey : Option (ρ → Nat))
    {xs ys : List ρ} (h : xs.Perm ys) :
    (applyJoin ids okey xs).Perm (applyJoin ids okey ys) := by
  cases okey with
  | none => exact h
  | some k => exact joinOnIds_perm ids k h

theorem applyJoin_append {ρ : Type} (ids : List Nat) (okey : Option (ρ → Nat))
    (xs ys : List ρ) :
    (applyJoin ids okey (xs ++ ys)).Perm
      (applyJoin ids okey xs ++ applyJoin ids okey ys) := by
  cases okey with
  | none => exact List.Perm.refl _
  | some k => exact joinOnIds_append ids k xs ys

theorem filterChunk_append {ρ : Type} (ids : List Nat) (ts : TableSpec ρ)
    (xs ys : List ρ) :
    (filterChunk ids ts (xs ++ ys)).Perm
      (filterChunk ids ts xs ++ filterChunk ids ts ys) := by
  unfold filterChunk
  refine (applyJoin_perm ids ts.final_id (applyJoin_perm ids ts.init_id
    (applyJoin_append ids ts.compound_id xs ys))).trans ?_
  refine (applyJoin_perm ids ts.final_id
    (applyJoin_append ids ts.init_id _ _)).trans ?_
  exact applyJoin_append ids ts.final_id _ _

theorem filterChunk_length_append {ρ : Type} (ids : List Nat)
    (ts : TableSpec ρ) (xs ys : List ρ) :
    (filterChunk ids ts (xs ++ ys)).length =
      (filterChunk ids ts xs).length + (filterChunk ids ts ys).length := by
  rw [(filterChunk_append ids ts xs ys).length_eq, List.length_append]

/-! ### Claim C2 -/

/-- C2: for every dependent table (modelled by its referential-column
spec `ts`) and any chunking of its source rows, the per-table count equals
the number of rows in the table after ingestion; every ingested row's
referential columns all point into the compound id list of the run (the ids
of the Compound table after ingestion); and any chunk row with a dangling
`compound_id`, `init_id` or `final_id` is absent from the table — it is
dropped by the inner join (a total function: no error is raised) and, being
absent, contributes nothing to the count. -/
theorem c2_referential_filter {ρ : Type} (ids : List Nat) (ts : TableSpec ρ)
    (chunks : List (List ρ)) :
    (insert_data_table ids ts chunks).1 =
      (insert_data_table ids ts chunks).2.length ∧
    (∀ r ∈ (insert_data_table ids ts chunks).2,
      (∀ k, ts.compound_id = some k → k r ∈ ids) ∧
      (∀ k, ts.init_id = some k → k r ∈ ids) ∧
      (∀ k, ts.final_id = some k → k r ∈ ids)) ∧
    (∀ chunk ∈ chunks, ∀ r ∈ chunk,
      ((∃ k, ts.compound_id = some k ∧ k r ∉ ids) ∨
       (∃ k, ts.init_id = some k ∧ k r ∉ ids) ∨
       (∃ k, ts.final_id = some k ∧ k r ∉ ids)) →
      r ∉ (insert_data_table ids ts chunks).2) := by
  have hmem : ∀ r ∈ (insert_data_table ids ts chunks).2,
      (∀ k, ts.compound_id = some k → k r ∈ ids) ∧
      (∀ k, ts.init_id = some k → k r ∈ ids) ∧
      (∀ k, ts.final_id = some k → k r ∈ ids) := by
    intro r hr
    rw [insert_data_table_eq] at hr
    simp only [List.mem_flatten, List.mem_map] at hr
    obtain ⟨l, ⟨chunk, _, rfl⟩, hrl⟩ := hr
    exact (mem_filterChunk hrl).2
  refine ⟨?_, hmem, ?_⟩
  · rw [insert_data_table_eq]
    simp only [List.length_flatten, List.map_map]
    rfl
  · intro chunk _ r _ hviol hrmem
    obtain ⟨hcid, hini, hfin⟩ := hmem r hrmem
    rcases hviol with ⟨k, hk, hout⟩ | ⟨k, hk, hout⟩ | ⟨k, hk, hout⟩
    · exact hout (hcid k hk)
    · exact hout (hini k hk)
    · exact hout (hfin k hk)

/-- The table spec of the C2/C5 witnesses: rows are `(id, compound_id)`
pairs of a table carrying only a `compound_id` referential column. -/
def tsC2 : TableSpec (Nat × Nat) := ⟨some Prod.snd, none, none⟩

/-- The chunked source rows of the C2 witness: row `(11, 3)` dangles. -/
def chunksC2 : List (List (Nat × Nat)) := [[(10, 1), (11, 3)], [(12, 2)]]

/-- Witness for C2 at a concrete run with compound ids `[1, 2]`. -/
theorem c2_witness :
    (insert_data_table [1, 2] tsC2 chunksC2).1 =
      (insert_data_table [1, 2] tsC2 chunksC2).2.length ∧
    ((11, 3) : Nat × Nat) ∉ (insert_data_table [1, 2] tsC2 chunksC2).2 :=
  ⟨(c2_referential_filter [1, 2] tsC2 chunksC2).1,
   (c2_referential_filter [1, 2] tsC2 chunksC2).2.2 [(10, 1), (11, 3)]
     (by decide) (11, 3) (by decide) (Or.inl ⟨Prod.snd, rfl, by decide⟩)⟩

/-! ### Claim C5 -/

/-- C5: the total inserted-row count of a table is the same whether the
source rows are processed as one single chunk or split into any chunks —
the per-chunk referential filter and count accumulation commute with chunk
splitting. -/
theorem c5_chunk_invariance {ρ : Type} (ids : List Nat) (ts : TableSpec ρ)
    (chunks : List (List ρ)) :
    (insert_data_table ids ts chunks).1 =
      (insert_data_table ids ts [chunks.flatten]).1 := by
  rw [insert_data_table_eq, insert_data_table_eq]
  simp only [List.map_cons, List.map_nil, List.sum_cons, List.sum_nil,
    Nat.add_zero]
  induction chunks with
  | nil => simp [filterChunk_nil]
  | cons c cs ih => simp [List.flatten_cons, filterChunk_length_append, ih]

/-! ### Claim C6 -/

/-- C6: running the uniqueness-constraint setup twice never errors, and
afterwards the store holds exactly one `n10s_unique_uri` constraint —
provided the store starts (as any real store does) with at most one
constraint of that name. -/
theorem c6_constraint_idempotent (s : GraphStoreState)
    (h : s.constraints.count n10s_constraint ≤ 1) :
    ∃ s1 s2, setupConstraint s = Except.ok s1 ∧
      setupConstraint s1 = Except.ok s2 ∧
      s2.constraints.count n10s_constraint = 1 := by
  unfold setupConstraint runCreateConstraintIfNotExists
  by_cases hm : n10s_constraint ∈ s.constraints
  · refine ⟨s, s, by simp [hm], by simp [hm], ?_⟩
    have h1 : 0 < s.constraints.count n10s_constraint :=
      List.count_pos_iff.mpr hm
    omega
  · refine ⟨⟨s.constraints ++ [n10s_constraint]⟩,
      ⟨s.constraints ++ [n10s_constraint]⟩, by simp [hm], by simp, ?_⟩
    simp [List.count_append, List.count_eq_zero.mpr hm]

/-- Witness for C6 starting from an empty constraint catalogue. -/
theorem c6_witness :
    (⟨[]⟩ : GraphStoreState).constraints.count n10s_constraint ≤ 1 ∧
    ∃ s1 s2, setupConstraint ⟨[]⟩ = Except.ok s1 ∧
      setupConstraint s1 = Except.ok s2 ∧
      s2.constraints.count n10s_constraint = 1 :=
  ⟨by decide, c6_constraint_idempotent ⟨[]⟩ (by decide)⟩

/-! ### Claim C7 -/

/-- Claim C7 as stated (its file-hygiene part): whenever the fetch aborts
with a transport error, no file whose transfer failed is left under its
final name. -/
def claimC7 : Prop :=
  ∀ (transport : String → Transfer) (redl : Bool) (names : List String)
    (fs : FileSys) (e : String) (fsE : FileSys),
    download_data transport redl names fs = Except.error (e, fsE) →
    ∀ n ws msg, transport n = Transfer.failed ws msg → fsGet fsE n = none

/-- A transport that always fails after writing one chunk. -/
def transportC7 : String → Transfer :=
  fun _ => Transfer.failed ["PART"] "connection reset"

/-- The staging directory after the failed fetch of `compounds.tsv.gz`. -/
def fsC7 : FileSys := [("compounds.tsv.gz", "PART")]

theorem fsGet_fsSet (fs : FileSys) (name content : String) :
    fsGet (fsSet fs name content) name = some content := by
  simp [fsGet, fsSet, List.find?]

/-- C7 fails on the code: `download_data` opens the destination under its
final name and streams into it, so a mid-transfer failure leaves the
partial content (`"PART"`) in place under `compounds.tsv.gz`; there is no
temporary name, rename, or delete-on-failure. -/
theorem c7_counterexample : ¬ claimC7 := by
  intro h
  have hrun : download_data transportC7 false ["compounds.tsv.gz"] [] =
      Except.error ("connection reset", fsC7) := by rfl
  have := h transportC7 false ["compounds.tsv.gz"] [] "connection reset"
    fsC7 hrun "compounds.tsv.gz" ["PART"] "connection reset" rfl
  rw [show fsGet fsC7 "compounds.tsv.gz" = some "PART" from rfl] at this
  cases this

/-- C7 (amended): a transport error aborts the whole fetch by propagating
the transport error, and the failed file is left under its final name with
exactly the partially transferred content — so a file existing under its
final name is not guaranteed complete. -/
theorem c7_amended (transport : String → Transfer) (redl : Bool) :
    ∀ (names : List String) (fs : FileSys) (e : String) (fsE : FileSys),
    download_data transport redl names fs = Except.error (e, fsE) →
    ∃ n ∈ names, ∃ ws, transport n = Transfer.failed ws e ∧
      fsGet fsE n = some (String.join ws) := by
  intro names
  induction names with
  | nil =>
      intro fs e fsE h
      simp [download_data] at h
  | cons n rest ih =>
      intro fs e fsE h
      unfold download_data at h
      by_cases hskip : (!redl && (fsGet fs n).isSome) = true
      · rw [if_pos hskip] at h
        obtain ⟨m, hm, hrest⟩ := ih fs e fsE h
        exact ⟨m, List.mem_cons_of_mem n hm, hrest⟩
      · rw [if_neg hskip] at h
        cases htr : transport n with
        | complete cs =>
            rw [htr] at h
            obtain ⟨m, hm, hrest⟩ := ih _ e fsE h
            exact ⟨m, List.mem_cons_of_mem n hm, hrest⟩
        | failed ws msg =>
            rw [htr] at h
            injection h with h2
            have he : msg = e := congrArg Prod.fst h2
            have hfs : fsE = fsSet fs n (String.join ws) :=
              (congrArg Prod.snd h2).symm
            refine ⟨n, List.mem_cons_self n rest, ws, he ▸ htr, ?_⟩
            rw [hfs, fsGet_fsSet]

/-- Witness for the amended C7 at the concrete failing fetch. -/
theorem c7_witness :
    ∃ n ∈ ["compounds.tsv.gz"], ∃ ws,
      transportC7 n = Transfer.failed ws "connection reset" ∧
      fsGet fsC7 n = some (String.join ws) :=
  c7_amended transportC7 false ["compounds.tsv.gz"] [] "connection reset"
    fsC7 (by rfl)
